import Mathlib

/-!
Verification of the formula-processing subsystem of MCP-Sheet-Parser
(src/mcp_sheet_parser/formula_processor.py) against its natural-language
specification.

The Python source is shallowly embedded below.  Machine conventions:

* Python strings are modelled as `List Char` internally; public entry points
  take `String` and immediately pass to the char-list worker.
* Python numbers (int / float) are modelled as `ℚ`.  The int/float
  distinction is dropped: every concrete value exercised by the claims is
  exact in both models.  Results that are irrational in exact arithmetic
  (for example SQRT of a non-square, or a non-integer exponent) cannot be
  represented in `ℚ`; those branches return a `#VALUE!` error and are marked
  with a comment.  No claim depends on them.
* Python `eval` is applied by the source only to sanitized arithmetic /
  comparison strings (digits, `+ - * / % ** ( ) .`, comparison operators);
  it is embedded as an explicit tokenizer plus precedence-climbing
  recursive-descent interpreter with Python operator semantics
  (true division, floor-mod, right-associative power, unary minus).
* The mutable recursion-depth attribute of FormulaCalculator is threaded
  explicitly as a `ℕ` state argument through every function that can reach
  range resolution.
* Exceptions are modelled with `Option` / `Except`; the defensive
  catch-all handlers of the source that can only fire on interpreter-level
  faults (unreachable in the pure model) are noted by comments.
-/

/- The Batteries library seals the arithmetic of Rat; reopen it locally so
that concrete evaluations of the embedded program reduce definitionally. -/
attribute [local semireducible] Rat.add Rat.mul Rat.sub Rat.inv Rat.ofScientific

namespace MCPSheet

/-! ## Basic character and digit utilities -/

/-- Decimal rendering of a natural number, least significant digit last.
Mirrors the decimal rendering used by Python str()/f-strings. -/
def natToDigits (n : ℕ) : List Char :=
  if h : n < 10 then [Char.ofNat (48 + n)]
  else natToDigits (n / 10) ++ [Char.ofNat (48 + n % 10)]
  decreasing_by exact Nat.div_lt_self (by omega) (by omega)

/-- Value of a single decimal digit character. -/
def digitVal (c : Char) : ℕ := c.toNat - 48

/-- Value of a string of decimal digit characters (most significant first). -/
def digitsVal (l : List Char) : ℕ :=
  l.foldl (fun acc c => acc * 10 + digitVal c) 0

/-- Decimal rendering of an integer (sign plus digits), as Python str(). -/
def intToChars (n : ℤ) : List Char :=
  if n < 0 then Char.ofNat 45 :: natToDigits (-n).toNat else natToDigits n.toNat

/-- ASCII decimal digit test (regex \d). -/
def isDigitCh (c : Char) : Bool := 48 ≤ c.toNat && c.toNat ≤ 57

/-- ASCII letter test (regex [A-Z] with re.IGNORECASE). -/
def isLetterCh (c : Char) : Bool :=
  (65 ≤ c.toNat && c.toNat ≤ 90) || (97 ≤ c.toNat && c.toNat ≤ 122)

/-- Whitespace test (regex \s, Python str.strip); ASCII whitespace. -/
def isWsCh (c : Char) : Bool :=
  c = ' ' || c = '\t' || c = '\n' || c = '\r' || c.toNat = 11 || c.toNat = 12

/-- Python str.strip(): drop leading and trailing whitespace. -/
def trimChars (l : List Char) : List Char :=
  ((l.dropWhile isWsCh).reverse.dropWhile isWsCh).reverse

/-- Uppercase a character (ASCII), as Python str.upper on the
character sets relevant here. -/
def upCh (c : Char) : Char :=
  if 97 ≤ c.toNat && c.toNat ≤ 122 then Char.ofNat (c.toNat - 32) else c

/-- Python s.upper() on the char-list model. -/
def upChars (l : List Char) : List Char := l.map upCh

/-- Substring test: Python (needle in haystack). -/
def startsChars : List Char → List Char → Bool
  | [], _ => true
  | _ :: _, [] => false
  | a :: as, b :: bs => a = b && startsChars as bs

/-- Python substring containment (needle in haystack). -/
def substrChars (needle : List Char) : List Char → Bool
  | [] => needle.isEmpty
  | c :: rest => startsChars needle (c :: rest) || substrChars needle rest

/-! ## Data model (FormulaError, FormulaType, values, cells) -/

/-- class FormulaError(Enum) of formula_processor.py. -/
inductive FormulaError where
  | refError | divZero | valueError | nameError | numError | naError | nullError
deriving DecidableEq, Repr

/-- The canonical display string of each error kind (the Enum value). -/
def FormulaError.value : FormulaError → String
  | .refError => "#REF!"
  | .divZero => "#DIV/0!"
  | .valueError => "#VALUE!"
  | .nameError => "#NAME?"
  | .numError => "#NUM!"
  | .naError => "#N/A"
  | .nullError => "#NULL!"

/-- The list of all error kinds ([e for e in FormulaError]). -/
def allFormulaErrors : List FormulaError :=
  [.refError, .divZero, .valueError, .nameError, .numError, .naError, .nullError]

/-- class FormulaType(Enum) of formula_processor.py. -/
inductive FormulaType where
  | simpleMath | function | reference | array | conditional | complex
deriving DecidableEq, Repr

/-- A cell of the caller-supplied grid: a number, a string, or empty
(Python None).  The source treats the grid as untyped Python data; the
cell populations exercised by the spec and claims are numbers, strings
and blanks. -/
inductive CellVal where
  | cnum (q : ℚ)
  | cstr (s : String)
  | cblank
deriving DecidableEq, Repr

/-- The grid: sheet_data['data'], a list of rows of cells. -/
abbrev Grid := List (List CellVal)

/-- A runtime value flowing through evaluation (Python Any): number,
string, boolean, list (a resolved range), or None. -/
inductive Value where
  | num (q : ℚ)
  | text (s : String)
  | vbool (b : Bool)
  | vlist (vs : List Value)
  | vnone

/-- Python isinstance(v, (int, float)) — note bool is a subclass of int. -/
def Value.asNum : Value → Option ℚ
  | .num q => some q
  | .vbool b => some (if b then 1 else 0)
  | _ => none

/-- Python truthiness bool(v) for the value domain in play. -/
def Value.truthy : Value → Bool
  | .num q => q ≠ 0
  | .text s => s ≠ ""
  | .vbool b => b
  | .vlist vs => ¬ vs.isEmpty
  | .vnone => false

/-! ## Reference resolver (class CellReference)

The source parses references with
  cell_pattern  = (?:([^!]+)!)?\$?([A-Z]+)\$?(\d+)          (IGNORECASE, re.match)
  range_pattern = (?:([^!]+)!)?\$?([A-Z]+)\$?(\d+):\$?([A-Z]+)\$?(\d+)
re.match anchors at the start only: trailing characters after a match are
ignored.  Both patterns are deterministic: the optional sheet group can
only split at the first exclamation mark (its char class excludes it), the
letter run and the digit run are maximal (shorter runs cannot satisfy the
following mandatory class).  The embedding below realises exactly that
backtracking-free reading. -/

/-- CellReference._letters_to_col: bijective base 26, A=0 after the -1. -/
def lettersToCol (letters : List Char) : ℤ :=
  (letters.foldl (fun acc c => acc * 26 + ((upCh c).toNat - 65 + 1)) 0 : ℤ) - 1

/-- Consume the optional \$? of the reference patterns. -/
def stripDollar (l : List Char) : List Char :=
  if l.head? = some '$' then l.tail else l

/-- Match the core \$?([A-Z]+)\$?(\d+) at the head of the input; returns
(column, row) as zero-based indices and the unconsumed rest. -/
def scanCore (l : List Char) : Option (ℤ × ℤ × List Char) :=
  let l1 := stripDollar l
  let letters := l1.takeWhile isLetterCh
  if letters.isEmpty then none
  else
    let l3 := stripDollar (l1.drop letters.length)
    let digits := l3.takeWhile isDigitCh
    if digits.isEmpty then none
    else some (lettersToCol letters, (digitsVal digits : ℤ) - 1, l3.drop digits.length)

/-- Split at the first exclamation mark: the only decomposition the sheet
group (?:([^!]+)!)? can take.  Requires a nonempty part before it. -/
def splitAtBang (l : List Char) : Option (List Char × List Char) :=
  let before := l.takeWhile (fun c => ¬ c = '!')
  let rest := l.drop before.length
  match rest with
  | '!' :: after => if before.isEmpty then none else some (before, after)
  | _ => none

/-- CellReference.parse_cell_reference: (sheet, row, col), zero-based,
(none, -1, -1) when the pattern does not match a prefix of the stripped
input.  The sheet-qualified alternative is tried first, as the regex does. -/
def parseCellChars (ref : List Char) : Option String × ℤ × ℤ :=
  let t := trimChars ref
  match splitAtBang t with
  | some (sheet, after) =>
    match scanCore after with
    | some (col, row, _) => (some (String.mk sheet), row, col)
    | none =>
      match scanCore t with
      | some (col, row, _) => (none, row, col)
      | none => (none, -1, -1)
  | none =>
    match scanCore t with
    | some (col, row, _) => (none, row, col)
    | none => (none, -1, -1)

/-- String-level wrapper for parse_cell_reference. -/
def parseCellReference (ref : String) : Option String × ℤ × ℤ :=
  parseCellChars ref.data

/-- Match the range core \$?([A-Z]+)\$?(\d+):\$?([A-Z]+)\$?(\d+) at the
head of the input. -/
def scanRangeCore (l : List Char) : Option (ℤ × ℤ × ℤ × ℤ) :=
  match scanCore l with
  | none => none
  | some (c1, r1, rest) =>
    match rest with
    | ':' :: rest2 =>
      match scanCore rest2 with
      | none => none
      | some (c2, r2, _) => some (r1, c1, r2, c2)
    | _ => none

/-- CellReference.parse_range_reference: (sheet, start_row, start_col,
end_row, end_col); all -1 on mismatch. -/
def parseRangeChars (ref : List Char) : Option String × ℤ × ℤ × ℤ × ℤ :=
  let t := trimChars ref
  match splitAtBang t with
  | some (sheet, after) =>
    match scanRangeCore after with
    | some (r1, c1, r2, c2) => (some (String.mk sheet), r1, c1, r2, c2)
    | none =>
      match scanRangeCore t with
      | some (r1, c1, r2, c2) => (none, r1, c1, r2, c2)
      | none => (none, -1, -1, -1, -1)
  | none =>
    match scanRangeCore t with
    | some (r1, c1, r2, c2) => (none, r1, c1, r2, c2)
    | none => (none, -1, -1, -1, -1)

/-- String-level wrapper for parse_range_reference. -/
def parseRangeReference (ref : String) : Option String × ℤ × ℤ × ℤ × ℤ :=
  parseRangeChars ref.data

/-! ## Embedded Python eval on sanitized expression strings

The source hands Python eval only strings made of numbers, parentheses and
the operators + - * / // % ** ^ and comparisons (cell references having been
substituted first); anything else raises and is caught.  The fragment is
embedded as a tokenizer plus recursive-descent interpreter with Python
semantics: true division, floor division, floor modulo, right-associative
power with unary minus binding below it, integer xor for a bare caret,
chained comparisons.  Results irrational in exact arithmetic (non-integer
exponents) are flagged eunmod — they lie outside the rational value model
and no claim reaches them. -/

/-- Evaluation errors of the embedded eval: Python SyntaxError / NameError /
TypeError collapse to esyn, ZeroDivisionError is edivZero, and eunmod marks
results not representable in the rational model. -/
inductive EErr where
  | esyn | edivZero | eunmod
deriving DecidableEq, Repr

/-- A value produced by the embedded eval: a number or a boolean. -/
inductive PyVal where
  | pnum (q : ℚ)
  | pbool (b : Bool)
deriving DecidableEq, Repr

/-- Arithmetic coercion (Python bool is an int). -/
def PyVal.toQ : PyVal → ℚ
  | .pnum q => q
  | .pbool b => if b then 1 else 0

/-- Tokens of the sanitized expression language. -/
inductive Tok where
  | tnum (q : ℚ)
  | tadd | tsub | tmul | tdiv | tfdiv | tmod | tpow | txor
  | tlp | trp
  | tlt | tle | tgt | tge | teq | tne
deriving DecidableEq, Repr

/-- Scan a numeric literal (digits, optionally a decimal point) at the head
of the input, as the Python lexer does. -/
def scanNumber (l : List Char) : Option (ℚ × List Char) :=
  let ip := l.takeWhile isDigitCh
  let rest := l.drop ip.length
  match rest with
  | '.' :: rest2 =>
    let fp := rest2.takeWhile isDigitCh
    if ip.isEmpty && fp.isEmpty then none
    else some ((digitsVal ip : ℚ) + (digitsVal fp : ℚ) / (10 : ℚ) ^ fp.length,
               rest2.drop fp.length)
  | _ => if ip.isEmpty then none else some ((digitsVal ip : ℚ), rest)

/-- Tokenizer; none on any character outside the sanitized fragment
(Python would raise SyntaxError or NameError there). -/
def tokenizeAux : ℕ → List Char → Option (List Tok)
  | _, [] => some []
  | 0, _ => none
  | fuel + 1, c :: rest =>
    if isWsCh c then tokenizeAux fuel rest
    else if isDigitCh c || c = '.' then
      match scanNumber (c :: rest) with
      | some (q, rest2) => (tokenizeAux fuel rest2).map (fun ts => Tok.tnum q :: ts)
      | none => none
    else if c = '+' then (tokenizeAux fuel rest).map (fun ts => Tok.tadd :: ts)
    else if c = '-' then (tokenizeAux fuel rest).map (fun ts => Tok.tsub :: ts)
    else if c = '*' then
      match rest with
      | '*' :: rest2 => (tokenizeAux fuel rest2).map (fun ts => Tok.tpow :: ts)
      | _ => (tokenizeAux fuel rest).map (fun ts => Tok.tmul :: ts)
    else if c = '/' then
      match rest with
      | '/' :: rest2 => (tokenizeAux fuel rest2).map (fun ts => Tok.tfdiv :: ts)
      | _ => (tokenizeAux fuel rest).map (fun ts => Tok.tdiv :: ts)
    else if c = '%' then (tokenizeAux fuel rest).map (fun ts => Tok.tmod :: ts)
    else if c = '^' then (tokenizeAux fuel rest).map (fun ts => Tok.txor :: ts)
    else if c = '(' then (tokenizeAux fuel rest).map (fun ts => Tok.tlp :: ts)
    else if c = ')' then (tokenizeAux fuel rest).map (fun ts => Tok.trp :: ts)
    else if c = '<' then
      match rest with
      | '=' :: rest2 => (tokenizeAux fuel rest2).map (fun ts => Tok.tle :: ts)
      | _ => (tokenizeAux fuel rest).map (fun ts => Tok.tlt :: ts)
    else if c = '>' then
      match rest with
      | '=' :: rest2 => (tokenizeAux fuel rest2).map (fun ts => Tok.tge :: ts)
      | _ => (tokenizeAux fuel rest).map (fun ts => Tok.tgt :: ts)
    else if c = '=' then
      match rest with
      | '=' :: rest2 => (tokenizeAux fuel rest2).map (fun ts => Tok.teq :: ts)
      | _ => none
    else if c = '!' then
      match rest with
      | '=' :: rest2 => (tokenizeAux fuel rest2).map (fun ts => Tok.tne :: ts)
      | _ => none
    else none

/-- Tokenize a char list. -/
def tokenizeChars (l : List Char) : Option (List Tok) :=
  tokenizeAux (l.length + 1) l

/-- Python true division. -/
def applyDiv (a b : ℚ) : Except EErr ℚ :=
  if b = 0 then .error .edivZero else .ok (a / b)

/-- Python floor division. -/
def applyFDiv (a b : ℚ) : Except EErr ℚ :=
  if b = 0 then .error .edivZero else .ok ((⌊a / b⌋ : ℤ) : ℚ)

/-- Python floor modulo. -/
def applyMod (a b : ℚ) : Except EErr ℚ :=
  if b = 0 then .error .edivZero else .ok (a - b * ((⌊a / b⌋ : ℤ) : ℚ))

/-- Python power on rationals.  A non-integer exponent yields a float
(irrational in general): flagged eunmod, unreachable from any claim. -/
def applyPow (a b : ℚ) : Except EErr ℚ :=
  if b.den = 1 then
    if 0 ≤ b.num then .ok (a ^ b.num.toNat)
    else if a = 0 then .error .edivZero
    else .ok ((a ^ (-b.num).toNat)⁻¹)
  else .error .eunmod

/-- Python int xor for a bare caret (the source only ever feeds a bare caret
to eval from the argument path; elsewhere it first rewrites it to power).
Negative or fractional operands are outside the model (eunmod). -/
def applyXor (a b : ℚ) : Except EErr ℚ :=
  if a.den = 1 && b.den = 1 && 0 ≤ a.num && 0 ≤ b.num then
    .ok ((Nat.xor a.num.toNat b.num.toNat : ℕ) : ℚ)
  else .error .eunmod

/-- One comparison step, on arithmetically coerced operands. -/
def applyCmp (t : Tok) (a b : ℚ) : Bool :=
  match t with
  | .tlt => a < b
  | .tle => a ≤ b
  | .tgt => b < a
  | .tge => b ≤ a
  | .teq => a = b
  | .tne => ¬ a = b
  | _ => false

/-- Is the token a comparison operator. -/
def isCmpTok (t : Tok) : Bool :=
  match t with
  | .tlt | .tle | .tgt | .tge | .teq | .tne => true
  | _ => false

mutual

/-- Comparison level, with Python comparison chaining. -/
def parseCmp : ℕ → List Tok → Except EErr (PyVal × List Tok)
  | 0, _ => .error .esyn
  | fuel + 1, ts => do
    let (v, rest) ← parseXor fuel ts
    match rest with
    | t :: _ =>
      if isCmpTok t then parseCmpLoop fuel v true rest else .ok (v, rest)
    | [] => .ok (v, rest)

/-- Chained comparison accumulation: a < b < c is (a < b) and (b < c). -/
def parseCmpLoop : ℕ → PyVal → Bool → List Tok → Except EErr (PyVal × List Tok)
  | 0, _, _, _ => .error .esyn
  | fuel + 1, prev, acc, ts =>
    match ts with
    | t :: rest =>
      if isCmpTok t then do
        let (w, rest2) ← parseXor fuel rest
        parseCmpLoop fuel w (acc && applyCmp t prev.toQ w.toQ) rest2
      else .ok (.pbool acc, ts)
    | [] => .ok (.pbool acc, ts)

/-- Bare-caret xor level (lowest binary arithmetic precedence in Python). -/
def parseXor : ℕ → List Tok → Except EErr (PyVal × List Tok)
  | 0, _ => .error .esyn
  | fuel + 1, ts => do
    let (v, rest) ← parseAdd fuel ts
    parseXorLoop fuel v rest

/-- Left-associative xor chain. -/
def parseXorLoop : ℕ → PyVal → List Tok → Except EErr (PyVal × List Tok)
  | 0, _, _ => .error .esyn
  | fuel + 1, v, ts =>
    match ts with
    | .txor :: rest => do
      let (w, rest2) ← parseAdd fuel rest
      let r ← applyXor v.toQ w.toQ
      parseXorLoop fuel (.pnum r) rest2
    | _ => .ok (v, ts)

/-- Additive level. -/
def parseAdd : ℕ → List Tok → Except EErr (PyVal × List Tok)
  | 0, _ => .error .esyn
  | fuel + 1, ts => do
    let (v, rest) ← parseMul fuel ts
    parseAddLoop fuel v rest

/-- Left-associative + and - chain. -/
def parseAddLoop : ℕ → PyVal → List Tok → Except EErr (PyVal × List Tok)
  | 0, _, _ => .error .esyn
  | fuel + 1, v, ts =>
    match ts with
    | .tadd :: rest => do
      let (w, rest2) ← parseMul fuel rest
      parseAddLoop fuel (.pnum (v.toQ + w.toQ)) rest2
    | .tsub :: rest => do
      let (w, rest2) ← parseMul fuel rest
      parseAddLoop fuel (.pnum (v.toQ - w.toQ)) rest2
    | _ => .ok (v, ts)

/-- Multiplicative level. -/
def parseMul : ℕ → List Tok → Except EErr (PyVal × List Tok)
  | 0, _ => .error .esyn
  | fuel + 1, ts => do
    let (v, rest) ← parseUnary fuel ts
    parseMulLoop fuel v rest

/-- Left-associative * / // % chain. -/
def parseMulLoop : ℕ → PyVal → List Tok → Except EErr (PyVal × List Tok)
  | 0, _, _ => .error .esyn
  | fuel + 1, v, ts =>
    match ts with
    | .tmul :: rest => do
      let (w, rest2) ← parseUnary fuel rest
      parseMulLoop fuel (.pnum (v.toQ * w.toQ)) rest2
    | .tdiv :: rest => do
      let (w, rest2) ← parseUnary fuel rest
      let r ← applyDiv v.toQ w.toQ
      parseMulLoop fuel (.pnum r) rest2
    | .tfdiv :: rest => do
      let (w, rest2) ← parseUnary fuel rest
      let r ← applyFDiv v.toQ w.toQ
      parseMulLoop fuel (.pnum r) rest2
    | .tmod :: rest => do
      let (w, rest2) ← parseUnary fuel rest
      let r ← applyMod v.toQ w.toQ
      parseMulLoop fuel (.pnum r) rest2
    | _ => .ok (v, ts)

/-- Unary level: "-" u_expr | "+" u_expr | power. -/
def parseUnary : ℕ → List Tok → Except EErr (PyVal × List Tok)
  | 0, _ => .error .esyn
  | fuel + 1, ts =>
    match ts with
    | .tsub :: rest => do
      let (v, rest2) ← parseUnary fuel rest
      .ok (.pnum (-v.toQ), rest2)
    | .tadd :: rest => do
      let (v, rest2) ← parseUnary fuel rest
      .ok (.pnum v.toQ, rest2)
    | _ => parsePow fuel ts

/-- Power level: primary ["**" u_expr], right-associative, binding above
unary minus on the left and admitting it on the right. -/
def parsePow : ℕ → List Tok → Except EErr (PyVal × List Tok)
  | 0, _ => .error .esyn
  | fuel + 1, ts => do
    let (v, rest) ← parseAtom fuel ts
    match rest with
    | .tpow :: rest2 => do
      let (w, rest3) ← parseUnary fuel rest2
      let r ← applyPow v.toQ w.toQ
      .ok (.pnum r, rest3)
    | _ => .ok (v, rest)

/-- Primary level: a literal or a parenthesized expression. -/
def parseAtom : ℕ → List Tok → Except EErr (PyVal × List Tok)
  | 0, _ => .error .esyn
  | fuel + 1, ts =>
    match ts with
    | .tnum q :: rest => .ok (.pnum q, rest)
    | .tlp :: rest => do
      let (v, rest2) ← parseCmp fuel rest
      match rest2 with
      | .trp :: rest3 => .ok (v, rest3)
      | _ => .error .esyn
    | _ => .error .esyn

end

/-- The embedded Python eval on a sanitized expression string: tokenize,
parse and evaluate the whole input. -/
def evalPyChars (l : List Char) : Except EErr PyVal :=
  match tokenizeChars l with
  | none => .error .esyn
  | some ts =>
    match parseCmp ((ts.length + 1) * 8) ts with
    | .ok (v, []) => .ok v
    | .ok (_, _ :: _) => .error .esyn
    | .error e => .error e

/-! ## Numeric literal conversion (Python int() / float()) and str() -/

/-- Python int(s): optional surrounding whitespace, optional sign, a
nonempty digit run.  (PEP-515 underscores are not modelled.) -/
def parseIntChars (l : List Char) : Option ℤ :=
  let t := trimChars l
  let (sign, body) : ℤ × List Char :=
    match t with
    | '-' :: r => (-1, r)
    | '+' :: r => (1, r)
    | r => (1, r)
  if body.isEmpty then none
  else if body.all isDigitCh then some (sign * (digitsVal body : ℤ))
  else none

/-- Python float(s) restricted to finite decimal forms: optional sign,
digits with a decimal point somewhere (at least one digit), optional
decimal exponent.  (inf/nan spellings never reach this path: the source
only calls float on strings containing a dot.) -/
def parseFloatChars (l : List Char) : Option ℚ :=
  let t := trimChars l
  let (sign, body) : ℚ × List Char :=
    match t with
    | '-' :: r => (-1, r)
    | '+' :: r => (1, r)
    | r => (1, r)
  let ip := body.takeWhile isDigitCh
  let rest := body.drop ip.length
  let mant : Option (ℚ × List Char) :=
    match rest with
    | '.' :: rest2 =>
      let fp := rest2.takeWhile isDigitCh
      if ip.isEmpty && fp.isEmpty then none
      else some ((digitsVal ip : ℚ) + (digitsVal fp : ℚ) / (10 : ℚ) ^ fp.length,
                 rest2.drop fp.length)
    | _ => if ip.isEmpty then none else some ((digitsVal ip : ℚ), rest)
  match mant with
  | none => none
  | some (m, rest3) =>
    match rest3 with
    | [] => some (sign * m)
    | e :: rest4 =>
      if e = 'e' || e = 'E' then
        let (esign, ebody) : Bool × List Char :=
          match rest4 with
          | '-' :: r => (true, r)
          | '+' :: r => (false, r)
          | r => (false, r)
        if ebody.isEmpty || ¬ ebody.all isDigitCh then none
        else
          let ex := digitsVal ebody
          some (sign * (if esign then m / (10 : ℚ) ^ ex else m * (10 : ℚ) ^ ex))
      else none

/-- The numeric-coercion idiom of the source:
float(value) if a dot occurs in it, otherwise int(value). -/
def parsePyNumber (l : List Char) : Option ℚ :=
  if l.contains '.' then parseFloatChars l else parseIntChars l

/-- Python str() of a number.  Integers render exactly as Python ints do.
A non-integer renders as a parenthesized exact fraction: Python would print
a finite decimal; both spellings evaluate back to the same rational on the
only paths that consume this rendering (re-evaluation of substituted
arithmetic), and no claim reaches a non-integer here. -/
def qToChars (q : ℚ) : List Char :=
  if q.den = 1 then intToChars q.num
  else '(' :: (intToChars q.num ++ '/' :: natToDigits q.den ++ [')'])

/-! ## Grid accessor and substitution -/

/-- The cell at a parsed coordinate, when it is inside the grid: the
short-circuit bounds test row >= len(data) or col >= len(data[row]) of the
source corresponds to a none here. -/
def cellVal? (sd : Grid) (row col : ℤ) : Option CellVal :=
  (sd.get? row.toNat).bind (fun rowL => rowL.get? col.toNat)

/-- The grid lookup of _resolve_cell_reference once the reference parsed:
a row or column beyond the grid yields 0, a numeric cell its value, a
numeric-looking string its coercion, any other string itself, a blank 0. -/
def cellLookup (sd : Grid) (row col : ℤ) : Value × Option FormulaError :=
  match cellVal? sd row col with
  | none => (.num 0, none)
  | some v =>
    match v with
    | .cnum q => (.num q, none)
    | .cstr s =>
      match parsePyNumber s.data with
      | some q => (.num q, none)
      | none => (.text s, none)
    | .cblank => (.num 0, none)   -- Python: value or 0

/-- FormulaCalculator._resolve_cell_reference on the char-list model. -/
def resolveCellChars (sd : Grid) (ref : List Char) : Value × Option FormulaError :=
  let p := parseCellChars ref
  if p.2.1 = -1 || p.2.2 = -1 then
    (.text FormulaError.refError.value, some .refError)
  else cellLookup sd p.2.1 p.2.2

/-- String-level wrapper for _resolve_cell_reference. -/
def resolveCellReference (sd : Grid) (ref : String) : Value × Option FormulaError :=
  resolveCellChars sd ref.data

/-- Match a bare cell token [A-Z]+\d+ (IGNORECASE) at the head of the
input: maximal letter run then maximal digit run. -/
def matchSimpleCellTok (l : List Char) : Option (List Char × List Char) :=
  let letters := l.takeWhile isLetterCh
  if letters.isEmpty then none
  else
    let rest := l.drop letters.length
    let digits := rest.takeWhile isDigitCh
    if digits.isEmpty then none
    else some (letters ++ digits, rest.drop digits.length)

/-- The replacement the source applies per matched cell token: the resolved
value when it is numeric and error-free, otherwise the literal 0. -/
def substVal (sd : Grid) (tok : List Char) : List Char :=
  match resolveCellChars sd tok with
  | (.num q, none) => qToChars q
  | _ => ['0']

/-- Leftmost non-overlapping scan of re.sub(r'[A-Z]+\d+', ...). -/
def substAux (sd : Grid) : ℕ → List Char → List Char
  | _, [] => []
  | 0, l => l
  | fuel + 1, c :: rest =>
    match matchSimpleCellTok (c :: rest) with
    | some (tok, after) => substVal sd tok ++ substAux sd fuel after
    | none => c :: substAux sd fuel rest

/-- FormulaCalculator._substitute_references: substitute each bare cell
token with its numeric value (or 0), then rewrite the caret to power. -/
def substituteReferences (sd : Grid) (l : List Char) : List Char :=
  (substAux sd (l.length + 1) l).flatMap (fun c => if c = '^' then ['*', '*'] else [c])

/-! ## Range resolution (FormulaCalculator._resolve_range_reference) -/

/-- The body of the range-resolution loop for one visited cell, threading
the shared recursion-depth counter: a number is collected; a formula string
is substituted and re-evaluated inside an increment/decrement pair whose
decrement runs on the success and the exception path alike; a numeric
string is coerced; anything else (including a blank) is skipped. -/
def rangeCellStep (sd : Grid) (d : ℕ) (v : CellVal) : List Value × ℕ :=
  match v with
  | .cnum q => ([.num q], d)
  | .cstr s =>
    match s.data with
    | '=' :: body =>
      let d1 := d + 1
      match evalPyChars (substituteReferences sd body) with
      | .ok (.pnum q) => ([.num q], d1 - 1)     -- isinstance(result, (int, float))
      | .ok (.pbool b) => ([.vbool b], d1 - 1)  -- bool is an int in Python
      | .error _ => ([], d1 - 1)                -- except: decrement, continue
    | _ =>
      match parsePyNumber s.data with
      | some q => ([.num q], d)
      | none => ([], d)
  | .cblank => ([], d)

/-- FormulaCalculator._resolve_range_reference: iterate the clamped
rectangle row-major, collecting values; the depth guard returns the empty
list once the shared counter exceeds 10. -/
def resolveRangeChars (sd : Grid) (ref : List Char) (d : ℕ) : List Value × ℕ :=
  let p := parseRangeChars ref
  let startRow := p.2.1
  let startCol := p.2.2.1
  let endRow := p.2.2.2.1
  let endCol := p.2.2.2.2
  if startRow = -1 then ([], d)
  else if 10 < d then ([], d)
  else
    let lo := startRow.toNat
    let hi := (min (endRow + 1) (sd.length : ℤ)).toNat
    (List.range' lo (hi - lo)).foldl (fun acc r =>
      let rowL := sd.getD r []
      let cLo := startCol.toNat
      let cHi := (min (endCol + 1) (rowL.length : ℤ)).toNat
      (List.range' cLo (cHi - cLo)).foldl (fun acc2 c =>
        let step := rangeCellStep sd acc2.2 (rowL.getD c .cblank)
        (acc2.1 ++ step.1, step.2)) acc) (([] : List Value), d)

/-- String-level wrapper for _resolve_range_reference. -/
def resolveRangeReference (sd : Grid) (ref : String) (d : ℕ) : List Value × ℕ :=
  resolveRangeChars sd ref.data d

/-! ## Dependency extraction (FormulaCalculator._extract_dependencies)

Range tokens use (?:[^!\s]+!)?[A-Z]+\d+:[A-Z]+\d+ and cell tokens
(?:[^!\s]+!)?[A-Z]+\d+, collected with re.findall (leftmost,
non-overlapping); cell tokens that occur as substrings of a collected
range token are dropped, and the result is deduplicated by set(). -/

/-- Match [A-Z]+\d+:[A-Z]+\d+ at the head of the input. -/
def matchDepRangeCore (l : List Char) : Option (List Char × List Char) :=
  match matchSimpleCellTok l with
  | none => none
  | some (tok1, rest) =>
    match rest with
    | ':' :: rest2 =>
      match matchSimpleCellTok rest2 with
      | none => none
      | some (tok2, rest3) => some (tok1 ++ ':' :: tok2, rest3)
    | _ => none

/-- Try the optional sheet qualifier (?:[^!\s]+!)? before a core pattern:
the sheet run can only break at the first exclamation mark; when the
qualified alternative fails, the bare core is tried at the same spot. -/
def matchDepAt (core : List Char → Option (List Char × List Char))
    (l : List Char) : Option (List Char × List Char) :=
  let run := l.takeWhile (fun c => ¬ c = '!' && ¬ isWsCh c)
  let rest := l.drop run.length
  match rest with
  | '!' :: after =>
    if run.isEmpty then core l
    else
      match core after with
      | some (tok, rest2) => some (run ++ '!' :: tok, rest2)
      | none => core l
  | _ => core l

/-- re.findall: scan left to right, collecting non-overlapping matches. -/
def findAllAux (m : List Char → Option (List Char × List Char)) :
    ℕ → List Char → List (List Char)
  | 0, _ => []
  | _, [] => []
  | fuel + 1, c :: rest =>
    match m (c :: rest) with
    | some (tok, after) => tok :: findAllAux m fuel after
    | none => findAllAux m fuel rest

/-- All range-reference tokens of a formula, in match order. -/
def rangeRefsOf (f : List Char) : List (List Char) :=
  findAllAux (matchDepAt matchDepRangeCore) (f.length + 1) f

/-- All cell-reference tokens of a formula, in match order. -/
def cellRefsOf (f : List Char) : List (List Char) :=
  findAllAux (matchDepAt matchSimpleCellTok) (f.length + 1) f

/-- The cell tokens kept after dropping those that occur inside a collected
range token. -/
def keptCellRefs (f : List Char) : List (List Char) :=
  (cellRefsOf f).filter (fun c => ¬ (rangeRefsOf f).any (fun r => substrChars c r))

/-- FormulaCalculator._extract_dependencies; the final list(set(...)) of the
source is order-irrelevant, modelled as a Finset. -/
def extractDependenciesChars (f : List Char) : Finset String :=
  ((rangeRefsOf f ++ keptCellRefs f).map String.mk).toFinset

/-- String-level wrapper for _extract_dependencies. -/
def extractDependencies (f : String) : Finset String :=
  extractDependenciesChars f.data

/-! ## Classification (FormulaCalculator._detect_formula_type) -/

/-- Left brace character (written by code point to keep brace characters
out of the source text). -/
def lbraceCh : Char := Char.ofNat 123

/-- Right brace character. -/
def rbraceCh : Char := Char.ofNat 125

/-- Rule 1 test: the uppercased text contains IF followed by an opening
parenthesis anywhere. -/
def containsIFParen (f : List Char) : Bool :=
  substrChars ['I', 'F', '('] (upChars f)

/-- Operator character class [\+\-\*/\^%]. -/
def isOpCh (c : Char) : Bool :=
  c = '+' || c = '-' || c = '*' || c = '/' || c = '^' || c = '%'

/-- The character class of the SimpleMath regex ^[\d\s+\-*/().\^%]+$. -/
def isSimpleMathCh (c : Char) : Bool :=
  isDigitCh c || isWsCh c || isOpCh c || c = '(' || c = ')' || c = '.'

/-- Full-string SimpleMath charset test (nonempty, all chars in class). -/
def isSimpleMathChars (f : List Char) : Bool :=
  ¬ f.isEmpty && f.all isSimpleMathCh

/-- Full-string bare cell reference test ^[A-Z]+\d+$ (IGNORECASE). -/
def isCellRefFull (f : List Char) : Bool :=
  let letters := f.takeWhile isLetterCh
  ¬ letters.isEmpty &&
    (let rest := f.drop letters.length
     ¬ rest.isEmpty && rest.all isDigitCh)

/-- Match [A-Z]+\s*\( at the head: maximal letter run, optional
whitespace, an opening parenthesis; yields the function name. -/
def matchFuncNameAt (l : List Char) : Option (List Char) :=
  let letters := l.takeWhile isLetterCh
  if letters.isEmpty then none
  else
    match (l.drop letters.length).dropWhile isWsCh with
    | '(' :: _ => some letters
    | _ => none

/-- re.search(r'[A-Z]+\s*\(') — the leftmost function-name match. -/
def findFuncName : List Char → Option (List Char)
  | [] => none
  | c :: rest =>
    match matchFuncNameAt (c :: rest) with
    | some tok => some tok
    | none => findFuncName rest

/-- Does the text contain a function-call pattern anywhere. -/
def hasFuncCallChars (f : List Char) : Bool :=
  (findFuncName f).isSome

/-- FormulaCalculator._detect_formula_type: the six rules in source order,
first match wins. -/
def detectFormulaType (f : List Char) : FormulaType :=
  if containsIFParen f then .conditional
  else if f.contains lbraceCh && f.contains rbraceCh then .array
  else if hasFuncCallChars f then .function
  else if isSimpleMathChars f then .simpleMath
  else if isCellRefFull f then .reference
  else .complex

/-- FormulaCalculator._generate_description. -/
def generateDescription (f : List Char) (t : FormulaType) : String :=
  let base : String :=
    match t with
    | .simpleMath => "数学运算"
    | .function => "函数调用"
    | .reference => "单元格引用"
    | .array => "数组公式"
    | .conditional => "条件公式"
    | .complex => "复杂公式"
  match t with
  | .function =>
    match findFuncName f with
    | some name => String.mk (upChars name) ++ "函数"
    | none => base
  | _ => base

/-! ## Function library (the supported_functions table) -/

/-- Python int(v) on a runtime value: truncation toward zero for numbers,
string parsing for text; failure models the raised exception. -/
def qTrunc (q : ℚ) : ℤ :=
  if q < 0 then -(Int.toNat ⌊-q⌋ : ℤ) else ⌊q⌋

/-- Python int() applied to a runtime value. -/
def pyInt : Value → Option ℤ
  | .num q => some (qTrunc q)
  | .vbool b => some (if b then 1 else 0)
  | .text s => parseIntChars s.data
  | _ => none

/-- Python str() of a runtime value (repr inside lists). -/
def pyShow : ℕ → Bool → Value → String
  | _, _, .num q => String.mk (qToChars q)
  | _, r, .text s => if r then "'" ++ s ++ "'" else s
  | _, _, .vbool b => if b then "True" else "False"
  | _, _, .vnone => "None"
  | 0, _, .vlist _ => "[]"
  | fuel + 1, _, .vlist vs =>
    "[" ++ String.intercalate ", " (vs.map (pyShow fuel true)) ++ "]"

/-- Python str() of a runtime value. -/
def pyStr (v : Value) : String := pyShow 100 false v

/-- The numeric values drawn from an argument list the way the aggregate
functions do: lists contribute their numeric elements, bare numeric
arguments contribute themselves, everything else is ignored. -/
def collectNums (args : List Value) : List ℚ :=
  args.flatMap (fun a =>
    match a with
    | .vlist vs => vs.filterMap Value.asNum
    | _ =>
      match a.asNum with
      | some q => [q]
      | none => [])

/-- _function_sum. -/
def fnSum (args : List Value) : Except FormulaError Value :=
  .ok (.num (collectNums args).sum)

/-- _function_average: mean of the numeric values, 0 when there are none. -/
def fnAverage (args : List Value) : Except FormulaError Value :=
  let vs := collectNums args
  .ok (.num (if vs.isEmpty then 0 else vs.sum / (vs.length : ℚ)))

/-- _function_count. -/
def fnCount (args : List Value) : Except FormulaError Value :=
  .ok (.num ((collectNums args).length : ℚ))

/-- The COUNTA keep test: v is not None and v != "". -/
def countaKeep : Value → Bool
  | .vnone => false
  | .text s => ¬ s = ""
  | _ => true

/-- _function_counta. -/
def fnCounta (args : List Value) : Except FormulaError Value :=
  .ok (.num ((args.foldl (fun acc a =>
    match a with
    | .vlist vs => acc + (vs.filter countaKeep).length
    | _ => acc + (if countaKeep a then 1 else 0)) 0 : ℕ) : ℚ))

/-- _function_max: maximum of the numeric values, 0 when there are none. -/
def fnMax (args : List Value) : Except FormulaError Value :=
  match collectNums args with
  | [] => .ok (.num 0)
  | x :: xs => .ok (.num (xs.foldl max x))

/-- _function_min. -/
def fnMin (args : List Value) : Except FormulaError Value :=
  match collectNums args with
  | [] => .ok (.num 0)
  | x :: xs => .ok (.num (xs.foldl min x))

/-- _function_abs. -/
def fnAbs : List Value → Except FormulaError Value
  | [a] =>
    match a.asNum with
    | some q => .ok (.num (abs q))
    | none => .error .valueError
  | _ => .error .valueError

/-- Python round(): banker's rounding to nd decimal digits.  (Python
rounds binary floats; on the exact inputs of this development the results
coincide.) -/
def pyRound (q : ℚ) (nd : ℤ) : ℚ :=
  let x := q * (10 : ℚ) ^ nd
  let f := ⌊x⌋
  let r := x - (f : ℚ)
  let n : ℤ :=
    if r < 1 / 2 then f
    else if 1 / 2 < r then f + 1
    else if f % 2 = 0 then f else f + 1
  (n : ℚ) / (10 : ℚ) ^ nd

/-- _function_round. -/
def fnRound (args : List Value) : Except FormulaError Value :=
  if args.length < 1 || 2 < args.length then .error .valueError
  else
    let v := args.getD 0 .vnone
    let dg := if 1 < args.length then args.getD 1 .vnone else .num 0
    match v.asNum, dg.asNum with
    | some q, some d => .ok (.num (pyRound q (qTrunc d)))
    | _, _ => .error .valueError

/-- _function_int. -/
def fnInt : List Value → Except FormulaError Value
  | [a] =>
    match a.asNum with
    | some q => .ok (.num ((qTrunc q : ℤ) : ℚ))
    | none => .error .valueError
  | _ => .error .valueError

/-- Exact rational square root, when it exists. -/
def qSqrt (q : ℚ) : Option ℚ :=
  let n := q.num.toNat
  let d := q.den
  let sn := Nat.sqrt n
  let sd := Nat.sqrt d
  if sn * sn = n && sd * sd = d then some ((sn : ℚ) / (sd : ℚ)) else none

/-- _function_sqrt: negative input yields the NUM error.  An irrational
root lies outside the rational value model (flagged as the math-error
result; no claim reaches it). -/
def fnSqrt : List Value → Except FormulaError Value
  | [a] =>
    match a.asNum with
    | some q =>
      if q < 0 then .error .numError
      else
        match qSqrt q with
        | some r => .ok (.num r)
        | none => .error .valueError
    | none => .error .valueError
  | _ => .error .valueError

/-- _function_power: the caught Python exception on 0**negative maps to
the VALUE error, as the source's except-branch does. -/
def fnPower : List Value → Except FormulaError Value
  | [a, b] =>
    match a.asNum, b.asNum with
    | some x, some y =>
      match applyPow x y with
      | .ok r => .ok (.num r)
      | .error _ => .error .valueError
    | _, _ => .error .valueError
  | _ => .error .valueError

/-- _function_if: condition ? a : b with Python truthiness; a missing else
branch yields False. -/
def fnIf (args : List Value) : Except FormulaError Value :=
  if args.length < 2 || 3 < args.length then .error .valueError
  else
    let cond := args.getD 0 .vnone
    let tv := args.getD 1 .vnone
    let fv := if 2 < args.length then args.getD 2 .vnone else .vbool false
    .ok (if cond.truthy then tv else fv)

/-- _function_and. -/
def fnAnd (args : List Value) : Except FormulaError Value :=
  .ok (.vbool (args.all Value.truthy))

/-- _function_or. -/
def fnOr (args : List Value) : Except FormulaError Value :=
  .ok (.vbool (args.any Value.truthy))

/-- _function_not. -/
def fnNot : List Value → Except FormulaError Value
  | [a] => .ok (.vbool (¬ a.truthy))
  | _ => .error .valueError

/-- _function_len. -/
def fnLen : List Value → Except FormulaError Value
  | [a] => .ok (.num ((pyStr a).length : ℚ))
  | _ => .error .valueError

/-- Python slice index normalization for s[i:] and s[:i]. -/
def pyIdx (len : ℕ) (i : ℤ) : ℕ :=
  if i < 0 then len - (-i).toNat else min i.toNat len

/-- _function_left: text[:num_chars], default 1. -/
def fnLeft (args : List Value) : Except FormulaError Value :=
  if args.length < 1 || 2 < args.length then .error .valueError
  else
    let text := (pyStr (args.getD 0 .vnone)).data
    let nOpt := if 1 < args.length then pyInt (args.getD 1 .vnone) else some 1
    match nOpt with
    | some n => .ok (.text (String.mk (text.take (pyIdx text.length n))))
    | none => .error .valueError

/-- _function_right: text[-num_chars:], default 1. -/
def fnRight (args : List Value) : Except FormulaError Value :=
  if args.length < 1 || 2 < args.length then .error .valueError
  else
    let text := (pyStr (args.getD 0 .vnone)).data
    let nOpt := if 1 < args.length then pyInt (args.getD 1 .vnone) else some 1
    match nOpt with
    | some n => .ok (.text (String.mk (text.drop (pyIdx text.length (-n)))))
    | none => .error .valueError

/-- _function_mid: text[start-1 : start-1+length]. -/
def fnMid (args : List Value) : Except FormulaError Value :=
  if ¬ args.length = 3 then .error .valueError
  else
    let text := (pyStr (args.getD 0 .vnone)).data
    match pyInt (args.getD 1 .vnone), pyInt (args.getD 2 .vnone) with
    | some st, some ln =>
      let a := pyIdx text.length (st - 1)
      let b := pyIdx text.length (st - 1 + ln)
      .ok (.text (String.mk ((text.take b).drop a)))
    | _, _ => .error .valueError

/-- Lowercase a character (ASCII). -/
def lowCh (c : Char) : Char :=
  if 65 ≤ c.toNat && c.toNat ≤ 90 then Char.ofNat (c.toNat + 32) else c

/-- _function_upper. -/
def fnUpper : List Value → Except FormulaError Value
  | [a] => .ok (.text (String.mk (upChars (pyStr a).data)))
  | _ => .error .valueError

/-- _function_lower. -/
def fnLower : List Value → Except FormulaError Value
  | [a] => .ok (.text (String.mk ((pyStr a).data.map lowCh)))
  | _ => .error .valueError

/-- _function_concatenate. -/
def fnConcatenate (args : List Value) : Except FormulaError Value :=
  .ok (.text (String.join (args.map pyStr)))

/-- The names of the supported_functions table. -/
def supportedFunctionNames : List String :=
  ["SUM", "AVERAGE", "COUNT", "COUNTA", "MAX", "MIN", "ABS", "ROUND", "INT",
   "SQRT", "POWER", "IF", "AND", "OR", "NOT", "LEN", "LEFT", "RIGHT", "MID",
   "UPPER", "LOWER", "CONCATENATE"]

/-- Dispatch through the supported_functions table. -/
def applyFunction (name : String) (args : List Value) : Except FormulaError Value :=
  if name = "SUM" then fnSum args
  else if name = "AVERAGE" then fnAverage args
  else if name = "COUNT" then fnCount args
  else if name = "COUNTA" then fnCounta args
  else if name = "MAX" then fnMax args
  else if name = "MIN" then fnMin args
  else if name = "ABS" then fnAbs args
  else if name = "ROUND" then fnRound args
  else if name = "INT" then fnInt args
  else if name = "SQRT" then fnSqrt args
  else if name = "POWER" then fnPower args
  else if name = "IF" then fnIf args
  else if name = "AND" then fnAnd args
  else if name = "OR" then fnOr args
  else if name = "NOT" then fnNot args
  else if name = "LEN" then fnLen args
  else if name = "LEFT" then fnLeft args
  else if name = "RIGHT" then fnRight args
  else if name = "MID" then fnMid args
  else if name = "UPPER" then fnUpper args
  else if name = "LOWER" then fnLower args
  else if name = "CONCATENATE" then fnConcatenate args
  else .error .nameError

/-! ## Expression evaluator (argument parsing and formula evaluation) -/

/-- FormulaCalculator._evaluate_arg on a stripped argument, threading the
recursion-depth counter through possible range resolution.  An erroring
cell reference degrades to 0; a failed eval (for example a nested function
call, which raises NameError under Python eval) degrades to the literal
argument text. -/
def evaluateArgChars (sd : Grid) (arg : List Char) (d : ℕ) : Value × ℕ :=
  if arg.isEmpty then (.num 0, d)
  else if arg.head? = some '"' && arg.getLast? = some '"' then
    (.text (String.mk ((arg.drop 1).dropLast)), d)
  else
    match parsePyNumber arg with
    | some q => (.num q, d)
    | none =>
      if isCellRefFull arg then
        match resolveCellChars sd arg with
        | (v, none) => (v, d)
        | (_, some _) => (.num 0, d)
      else if arg.contains ':' then
        (.vlist (resolveRangeChars sd arg d).1, (resolveRangeChars sd arg d).2)
      else
        match evalPyChars arg with
        | .ok (.pnum q) => (.num q, d)
        | .ok (.pbool b) => (.vbool b, d)
        | .error _ => (.text (String.mk arg), d)

/-- Split the raw argument text at top-level commas, tracking parenthesis
depth exactly as _parse_function_args does; returns every segment,
including a final (possibly blank) one. -/
def splitTopArgs (l : List Char) : List (List Char) :=
  let st := l.foldl (fun (st : List (List Char) × List Char × ℤ) c =>
    let (segs, cur, lvl) := st
    if c = ',' && lvl = 0 then (segs ++ [cur.reverse], [], lvl)
    else
      let lvl2 : ℤ := if c = '(' then lvl + 1 else if c = ')' then lvl - 1 else lvl
      (segs, c :: cur, lvl2)) ([], [], 0)
  st.1 ++ [st.2.1.reverse]

/-- FormulaCalculator._parse_function_args: every comma-separated segment
is stripped and evaluated; the final segment is dropped when blank. -/
def parseFunctionArgsChars (sd : Grid) (argsStr : List Char) (d : ℕ) :
    List Value × ℕ :=
  if (trimChars argsStr).isEmpty then ([], d)
  else
    let segs := splitTopArgs argsStr
    let mains := segs.dropLast
    let lastSeg := segs.getLastD []
    let acc1 := mains.foldl (fun (acc : List Value × ℕ) seg =>
      (acc.1 ++ [(evaluateArgChars sd (trimChars seg) acc.2).1],
       (evaluateArgChars sd (trimChars seg) acc.2).2)) (([] : List Value), d)
    if (trimChars lastSeg).isEmpty then acc1
    else
      (acc1.1 ++ [(evaluateArgChars sd (trimChars lastSeg) acc1.2).1],
       (evaluateArgChars sd (trimChars lastSeg) acc1.2).2)

/-- Match ([A-Z]+)\s*\((.*)\) at the start (re.match, DOTALL): the leading
identifier and the text between its opening parenthesis and the last
closing parenthesis anywhere in the input. -/
def parseFuncCall (f : List Char) : Option (List Char × List Char) :=
  let letters := f.takeWhile isLetterCh
  if letters.isEmpty then none
  else
    match (f.drop letters.length).dropWhile isWsCh with
    | '(' :: body =>
      let rev := body.reverse
      let tailPart := rev.dropWhile (fun c => ¬ c = ')')
      match tailPart with
      | ')' :: pre => some (letters, pre.reverse)
      | _ => none
    | _ => none

/-- FormulaCalculator._evaluate_function.  (The defensive except-branch
around argument parsing and application can only fire on interpreter-level
faults, which the pure model has none of.) -/
def evaluateFunctionChars (sd : Grid) (f : List Char) (d : ℕ) :
    Value × Option FormulaError × ℕ :=
  match parseFuncCall f with
  | none => (.text FormulaError.nameError.value, some .nameError, d)
  | some (name, argsStr) =>
    let nameU := String.mk (upChars name)
    if supportedFunctionNames.contains nameU then
      match applyFunction nameU (parseFunctionArgsChars sd argsStr d).1 with
      | .error e => (.text e.value, some e, (parseFunctionArgsChars sd argsStr d).2)
      | .ok v => (v, none, (parseFunctionArgsChars sd argsStr d).2)
    else (.text FormulaError.nameError.value, some .nameError, d)

/-- The error literal recognised first by _evaluate_formula: the
uppercased text equal to one of the canonical error strings. -/
def errorOfUpper (u : List Char) : Option FormulaError :=
  allFormulaErrors.find? (fun e => u = e.value.data)

/-- The syntax pre-check of the SimpleMath branch: two or more consecutive
operator characters (regex [\+\-\*/\^%]-pair anywhere). -/
def hasConsecOps : List Char → Bool
  | a :: b :: rest => (isOpCh a && isOpCh b) || hasConsecOps (b :: rest)
  | _ => false

/-- Leading operator class of the edge check (minus is excluded: a leading
minus is a unary sign). -/
def isLeadOpCh (c : Char) : Bool :=
  c = '+' || c = '*' || c = '/' || c = '^' || c = '%'

/-- The edge check ^[\+\*/\^%]|[\+\-\*/\^%]$ of the SimpleMath branch. -/
def hasBadEdgeOp (l : List Char) : Bool :=
  (match l.head? with
   | some c => isLeadOpCh c
   | none => false) ||
  (match l.getLast? with
   | some c => isOpCh c
   | none => false)

/-- formula.replace('^', '**'). -/
def replaceCaret (l : List Char) : List Char :=
  l.flatMap (fun c => if c = '^' then ['*', '*'] else [c])

/-- Convert an eval result to a runtime value. -/
def pyValToValue : PyVal → Value
  | .pnum q => .num q
  | .pbool b => .vbool b

/-- FormulaCalculator._evaluate_formula: error literal, SimpleMath (with
the malformedness pre-check before any evaluation), bare cell reference,
function call, then the Complex path (textual substitution of cell
references followed by arithmetic evaluation, any failure becoming the
VALUE error). -/
def evaluateFormulaChars (sd : Grid) (f : List Char) (d : ℕ) :
    Value × Option FormulaError × ℕ :=
  match errorOfUpper (upChars f) with
  | some e => (.text (String.mk f), some e, d)
  | none =>
    if isSimpleMathChars f then
      if hasConsecOps f || hasBadEdgeOp f then
        (.text FormulaError.valueError.value, some .valueError, d)
      else
        match evalPyChars (replaceCaret f) with
        | .ok (.pnum q) => (.num q, none, d)
        | .ok (.pbool b) => (.vbool b, none, d)
        | .error .edivZero => (.text FormulaError.divZero.value, some .divZero, d)
        | .error _ => (.text FormulaError.valueError.value, some .valueError, d)
    else if isCellRefFull f then
      match resolveCellChars sd f with
      | (v, e) => (v, e, d)
    else if hasFuncCallChars f then evaluateFunctionChars sd f d
    else
      match evalPyChars (substituteReferences sd f) with
      | .ok v => (pyValToValue v, none, d)
      | .error _ => (.text FormulaError.valueError.value, some .valueError, d)

/-- String-level wrapper for _evaluate_formula. -/
def evaluateFormula (sd : Grid) (f : String) (d : ℕ) :
    Value × Option FormulaError × ℕ :=
  evaluateFormulaChars sd f.data d

/-! ## FormulaInfo and calculate_formula -/

/-- dataclass FormulaInfo.  The dependencies field is the deduplicated
set produced by list(set(...)). -/
structure FormulaInfo where
  original_formula : String
  formula_type : FormulaType
  calculated_value : Value
  error : Option FormulaError
  dependencies : Finset String
  is_calculated : Bool
  description : String

/-- FormulaCalculator.calculate_formula.  The current_row/current_col
hints are accepted and passed along as in the source, where
_evaluate_formula ignores them (no relative addressing).  The defensive
top-level except-branch of the source (returning a VALUE-error info with
is_calculated = False) only fires on interpreter-level faults and is
unreachable in the pure model. -/
def calculateFormulaChars (sd : Grid) (formula : List Char)
    (_crow _ccol : ℕ) (d : ℕ) : FormulaInfo × ℕ :=
  let f0 := trimChars formula
  let f := match f0 with
    | '=' :: body => body
    | _ => f0
  let ftype := detectFormulaType f
  let deps := extractDependenciesChars f
  let step := evaluateFormulaChars sd f d
  ({ original_formula := String.mk ('=' :: f),
     formula_type := ftype,
     calculated_value := step.1,
     error := step.2.1,
     dependencies := deps,
     is_calculated := true,
     description := generateDescription f ftype }, step.2.2)

/-- String-level wrapper for calculate_formula. -/
def calculateFormula (sd : Grid) (formula : String) (crow ccol : ℕ) (d : ℕ) :
    FormulaInfo × ℕ :=
  calculateFormulaChars sd formula.data crow ccol d

/-! ## Formula processor driver and statistics -/

/-- The statistics dictionary of FormulaProcessor. -/
structure Stats where
  total_formulas : ℕ
  calculated_formulas : ℕ
  error_formulas : ℕ
  function_usage : List (String × ℕ)
  error_types : List (String × ℕ)

/-- Fresh statistics of a new FormulaProcessor. -/
def initStats : Stats :=
  { total_formulas := 0, calculated_formulas := 0, error_formulas := 0,
    function_usage := [], error_types := [] }

/-- dict.get(k, 0) + 1 style counter bump on an association list. -/
def bumpCount (key : String) : List (String × ℕ) → List (String × ℕ)
  | [] => [(key, 1)]
  | (k, n) :: rest =>
    if k = key then (k, n + 1) :: rest else (k, n) :: bumpCount key rest

/-- The Python Enum member name (error.name). -/
def FormulaError.enumName : FormulaError → String
  | .refError => "REF_ERROR"
  | .divZero => "DIV_ZERO"
  | .valueError => "VALUE_ERROR"
  | .nameError => "NAME_ERROR"
  | .numError => "NUM_ERROR"
  | .naError => "NA_ERROR"
  | .nullError => "NULL_ERROR"

/-- FormulaProcessor._update_statistics. -/
def updateStatistics (info : FormulaInfo) (st : Stats) : Stats :=
  let st1 := { st with total_formulas := st.total_formulas + 1 }
  let st2 :=
    if info.is_calculated && info.error.isNone then
      { st1 with calculated_formulas := st1.calculated_formulas + 1 }
    else
      { st1 with error_formulas := st1.error_formulas + 1 }
  let st3 :=
    if info.formula_type = FormulaType.function then
      match findFuncName info.original_formula.data with
      | some name =>
        { st2 with function_usage :=
            bumpCount (String.mk (upChars name)) st2.function_usage }
      | none => st2
    else st2
  match info.error with
  | some e => { st3 with error_types := bumpCount e.enumName st3.error_types }
  | none => st3

/-- The result key f-string, row then column joined by an underscore. -/
def mkKey (r c : ℕ) : String :=
  String.mk (natToDigits r ++ '_' :: natToDigits c)

/-- Is a raw cell value a formula cell: a string beginning with the equals
sigil (FormulaProcessor.is_formula_cell). -/
def isFormulaVal : CellVal → Bool
  | .cstr s =>
    match s.data with
    | '=' :: _ => true
    | _ => false
  | _ => false

/-- The formula text of a cell, when it is a formula cell. -/
def formulaValOf : CellVal → Option String
  | .cstr s =>
    match s.data with
    | '=' :: _ => some s
    | _ => none
  | _ => none

/-- The formula cells of one row, scanning columns from index c (the inner
enumerate loop of process_sheet_formulas). -/
def rowCells (r : ℕ) : ℕ → List CellVal → List (ℕ × ℕ × String)
  | _, [] => []
  | c, v :: vs =>
    (match formulaValOf v with
     | some s => [(r, c, s)]
     | none => []) ++ rowCells r (c + 1) vs

/-- The formula cells of the rows, scanning rows from index r (the outer
enumerate loop). -/
def gridCells : ℕ → Grid → List (ℕ × ℕ × String)
  | _, [] => []
  | r, row :: rows => rowCells r 0 row ++ gridCells (r + 1) rows

/-- The formula cells of a grid in scan order: every (row, col, raw text)
whose raw value is a string beginning with the equals sigil. -/
def formulaCells (g : Grid) : List (ℕ × ℕ × String) :=
  gridCells 0 g

/-- The enhanced sheet data returned by process_sheet_formulas: the
caller's grid plus the formulas mapping. -/
structure EnhancedData where
  data : Grid
  formulas : List (String × FormulaInfo)

/-- One step of the processing scan: evaluate the formula cell, store the
result under its key, update the statistics, thread the depth counter. -/
def processStep (g : Grid) (st : EnhancedData × Stats × ℕ)
    (cell : ℕ × ℕ × String) : EnhancedData × Stats × ℕ :=
  let step := calculateFormulaChars g cell.2.2.data cell.1 cell.2.1 st.2.2
  ({ st.1 with formulas := st.1.formulas ++ [(mkKey cell.1 cell.2.1, step.1)] },
   updateStatistics step.1 st.2.1, step.2)

/-- FormulaProcessor.process_sheet_formulas on a fresh processor: one
top-to-bottom, left-to-right scan with a fresh calculator (depth counter
lazily zero) and fresh statistics. -/
def processSheetFormulas (g : Grid) : EnhancedData × Stats × ℕ :=
  (formulaCells g).foldl (processStep g)
    ({ data := g, formulas := [] }, initStats, 0)

/-! # Verification

Helper lemmas shared between the claims, then one theorem per claim. -/

/-- A fold whose step keeps the second component fixed keeps it across the
whole list. -/
theorem foldSndConst {β : Type} (g : (List Value × ℕ) → β → List Value × ℕ)
    (h : ∀ a x, (g a x).2 = a.2) :
    ∀ (l : List β) (acc : List Value × ℕ), (l.foldl g acc).2 = acc.2 := by
  intro l
  induction l with
  | nil => intro acc; rfl
  | cons x xs ih => intro acc; rw [List.foldl_cons, ih, h]

/-- The per-cell contribution of range resolution, independent of the
depth counter. -/
def rangeCellContrib (sd : Grid) (v : CellVal) : List Value :=
  match v with
  | .cnum q => [.num q]
  | .cstr s =>
    match s.data with
    | '=' :: body =>
      match evalPyChars (substituteReferences sd body) with
      | .ok (.pnum q) => [.num q]
      | .ok (.pbool b) => [.vbool b]
      | .error _ => []
    | _ =>
      match parsePyNumber s.data with
      | some q => [.num q]
      | none => []
  | .cblank => []

/-- The range-resolution step restores the depth counter it was given and
contributes values independent of it. -/
theorem rangeCellStep_eq (sd : Grid) (d : ℕ) (v : CellVal) :
    rangeCellStep sd d v = (rangeCellContrib sd v, d) := by
  cases v with
  | cnum q => rfl
  | cblank => rfl
  | cstr s =>
    simp only [rangeCellStep, rangeCellContrib]
    split
    · split <;> simp
    · split <;> rfl

/-- Every call to range resolution returns the depth counter it was
given. -/
theorem resolveRangeChars_depth (sd : Grid) (ref : List Char) (d : ℕ) :
    (resolveRangeChars sd ref d).2 = d := by
  unfold resolveRangeChars
  dsimp only
  by_cases h1 : (parseRangeChars ref).2.1 = -1
  · simp [h1]
  · by_cases h2 : 10 < d
    · simp [h1, h2]
    · rw [if_neg h1, if_neg h2]
      refine foldSndConst _ (fun a r => ?_) _ _
      refine foldSndConst _ (fun a2 c => ?_) _ _
      rw [rangeCellStep_eq]

/-- Argument evaluation returns the depth counter it was given. -/
theorem evaluateArgChars_depth (sd : Grid) (arg : List Char) (d : ℕ) :
    (evaluateArgChars sd arg d).2 = d := by
  unfold evaluateArgChars
  split
  · rfl
  split
  · rfl
  split
  · rfl
  split
  · split <;> rfl
  split
  · exact resolveRangeChars_depth sd arg d
  split <;> rfl

/-- Argument-list parsing returns the depth counter it was given. -/
theorem parseFunctionArgsChars_depth (sd : Grid) (argsStr : List Char) (d : ℕ) :
    (parseFunctionArgsChars sd argsStr d).2 = d := by
  unfold parseFunctionArgsChars
  split
  · rfl
  simp only [evaluateArgChars_depth]
  split <;>
    exact foldSndConst
      (fun (acc : List Value × ℕ) seg =>
        (acc.1 ++ [(evaluateArgChars sd (trimChars seg) acc.2).1], acc.2))
      (fun _ _ => rfl) _ _

/-- Function evaluation returns the depth counter it was given. -/
theorem evaluateFunctionChars_depth (sd : Grid) (f : List Char) (d : ℕ) :
    (evaluateFunctionChars sd f d).2.2 = d := by
  unfold evaluateFunctionChars
  split
  · rfl
  dsimp only
  split
  · split <;> simp only [parseFunctionArgsChars_depth]
  · rfl

/-- Formula evaluation returns the depth counter it was given. -/
theorem evaluateFormulaChars_depth (sd : Grid) (f : List Char) (d : ℕ) :
    (evaluateFormulaChars sd f d).2.2 = d := by
  unfold evaluateFormulaChars
  split
  · rfl
  split
  · split
    · rfl
    · split <;> rfl
  split
  · split; rfl
  split
  · exact evaluateFunctionChars_depth sd f d
  split <;> rfl

/-- calculate_formula returns the depth counter it was given. -/
theorem calculateFormulaChars_depth (sd : Grid) (formula : List Char)
    (crow ccol d : ℕ) :
    (calculateFormulaChars sd formula crow ccol d).2 = d := by
  unfold calculateFormulaChars
  exact evaluateFormulaChars_depth sd _ d

/-- Claim C10: range resolution always restores the recursion-depth
counter to its entry value — the increment around each embedded-formula
sub-evaluation is matched by a decrement on the success and the exception
path alike — and consequently a whole top-level formula evaluation
restores it too, so successive formulas processed by one calculator all
begin range resolution with the same (zero) consumed budget. -/
theorem claim10_recursion_depth_restored (sd : Grid) :
    (∀ (ref : List Char) (d : ℕ), (resolveRangeChars sd ref d).2 = d) ∧
    (∀ (formula : List Char) (crow ccol d : ℕ),
      (calculateFormulaChars sd formula crow ccol d).2 = d) :=
  ⟨fun ref d => resolveRangeChars_depth sd ref d,
   fun formula crow ccol d => calculateFormulaChars_depth sd formula crow ccol d⟩

/-! ## Frame property of the driver (claim C9) -/

/-- One processing step never touches the data grid of the enhanced
record. -/
theorem processStep_data (g : Grid) (st : EnhancedData × Stats × ℕ)
    (cell : ℕ × ℕ × String) : (processStep g st cell).1.data = st.1.data := rfl

/-- The processing fold never touches the data grid. -/
theorem processFold_data (g : Grid) :
    ∀ (cells : List (ℕ × ℕ × String)) (st : EnhancedData × Stats × ℕ),
      ((cells.foldl (processStep g) st).1).data = st.1.data := by
  intro cells
  induction cells with
  | nil => intro st; rfl
  | cons cell cells ih =>
    intro st
    rw [List.foldl_cons, ih, processStep_data]

/-- Claim C9: a full processing pass leaves the caller's grid unchanged;
results are delivered only through the returned mapping and statistics. -/
theorem claim9_grid_unchanged (g : Grid) :
    (processSheetFormulas g).1.data = g := by
  unfold processSheetFormulas
  rw [processFold_data]

/-! ## Decimal keys are injective (toward claim C1) -/

/-- Value of a digit character produced by natToDigits. -/
theorem digitVal_ofNat (m : ℕ) (hm : m < 10) :
    digitVal (Char.ofNat (48 + m)) = m := by
  interval_cases m <;> rfl

/-- natToDigits produces decimal digit characters only. -/
theorem natToDigits_all_digit (n : ℕ) :
    ∀ c ∈ natToDigits n, isDigitCh c = true := by
  induction n using Nat.strong_induction_on with
  | _ n ih =>
    rw [natToDigits]
    split
    · intro c hc
      rw [List.mem_singleton] at hc
      subst hc
      rename_i h
      interval_cases n <;> rfl
    · intro c hc
      rw [List.mem_append] at hc
      rcases hc with hc | hc
      · exact ih (n / 10) (Nat.div_lt_self (by omega) (by omega)) c hc
      · rw [List.mem_singleton] at hc
        subst hc
        have h10 : n % 10 < 10 := Nat.mod_lt _ (by omega)
        interval_cases h : n % 10 <;> rfl

/-- digitsVal over a final digit. -/
theorem digitsVal_append_singleton (l : List Char) (c : Char) :
    digitsVal (l ++ [c]) = 10 * digitsVal l + digitVal c := by
  simp [digitsVal, List.foldl_append]
  omega

/-- Decimal rendering round-trips through digitsVal. -/
theorem digitsVal_natToDigits (n : ℕ) : digitsVal (natToDigits n) = n := by
  induction n using Nat.strong_induction_on with
  | _ n ih =>
    rw [natToDigits]
    split
    · rename_i h
      interval_cases n <;> rfl
    · rename_i h
      rw [digitsVal_append_singleton,
        ih (n / 10) (Nat.div_lt_self (by omega) (by omega)),
        digitVal_ofNat _ (Nat.mod_lt _ (by omega))]
      omega

/-- The underscore never occurs in a decimal rendering. -/
theorem underscore_not_mem_natToDigits (n : ℕ) : '_' ∉ natToDigits n := by
  intro hmem
  have := natToDigits_all_digit n _ hmem
  simp [isDigitCh] at this

/-- Splitting at a separator absent from both prefixes is unambiguous. -/
theorem append_sep_inj (sep : Char) :
    ∀ (a a2 b b2 : List Char), sep ∉ a → sep ∉ a2 →
      a ++ sep :: b = a2 ++ sep :: b2 → a = a2 ∧ b = b2 := by
  intro a
  induction a with
  | nil =>
    intro a2 b b2 _ ha2 heq
    cases a2 with
    | nil => simpa using heq
    | cons x xs =>
      simp only [List.nil_append, List.cons_append, List.cons.injEq] at heq
      simp [heq.1] at ha2
  | cons x xs ih =>
    intro a2 b b2 ha ha2 heq
    cases a2 with
    | nil =>
      simp only [List.cons_append, List.nil_append, List.cons.injEq] at heq
      simp [heq.1] at ha
    | cons y ys =>
      simp only [List.cons_append, List.cons.injEq] at heq
      obtain ⟨hxy, heq2⟩ := heq
      obtain ⟨h1, h2⟩ := ih ys b b2 (fun h => ha (List.mem_cons_of_mem _ h))
        (fun h => ha2 (List.mem_cons_of_mem _ h)) heq2
      exact ⟨by rw [hxy, h1], h2⟩

/-- The result keys are injective in the coordinates. -/
theorem mkKey_inj (r c r2 c2 : ℕ) (h : mkKey r c = mkKey r2 c2) :
    r = r2 ∧ c = c2 := by
  unfold mkKey at h
  have hdata : natToDigits r ++ '_' :: natToDigits c
      = natToDigits r2 ++ '_' :: natToDigits c2 := by
    have := congrArg String.data h
    simpa using this
  obtain ⟨h1, h2⟩ := append_sep_inj '_' _ _ _ _
    (underscore_not_mem_natToDigits r) (underscore_not_mem_natToDigits r2) hdata
  constructor
  · have := congrArg digitsVal h1
    rwa [digitsVal_natToDigits, digitsVal_natToDigits] at this
  · have := congrArg digitsVal h2
    rwa [digitsVal_natToDigits, digitsVal_natToDigits] at this

/-! ## Per-cell result entries and statistics (claim C1) -/

/-- Every entry of a row scan carries the row index it was given. -/
theorem rowCells_fst (r : ℕ) :
    ∀ (c0 : ℕ) (vs : List CellVal) (t : ℕ × ℕ × String),
      t ∈ rowCells r c0 vs → t.1 = r := by
  intro c0 vs
  induction vs generalizing c0 with
  | nil => intro t ht; simp [rowCells] at ht
  | cons v vs ih =>
    intro t ht
    rw [rowCells, List.mem_append] at ht
    rcases ht with ht | ht
    · cases hv : formulaValOf v <;> rw [hv] at ht <;> simp at ht
      subst ht; rfl
    · exact ih (c0 + 1) t ht

/-- Column indices of a row scan are bounded below by the start index. -/
theorem rowCells_snd_lb (r : ℕ) :
    ∀ (c0 : ℕ) (vs : List CellVal) (t : ℕ × ℕ × String),
      t ∈ rowCells r c0 vs → c0 ≤ t.2.1 := by
  intro c0 vs
  induction vs generalizing c0 with
  | nil => intro t ht; simp [rowCells] at ht
  | cons v vs ih =>
    intro t ht
    rw [rowCells, List.mem_append] at ht
    rcases ht with ht | ht
    · cases hv : formulaValOf v <;> rw [hv] at ht <;> simp at ht
      subst ht; simp
    · exact Nat.le_of_succ_le (ih (c0 + 1) t ht)

/-- Row indices of a grid scan are bounded below by the start index. -/
theorem gridCells_fst_lb :
    ∀ (r0 : ℕ) (rows : Grid) (t : ℕ × ℕ × String),
      t ∈ gridCells r0 rows → r0 ≤ t.1 := by
  intro r0 rows
  induction rows generalizing r0 with
  | nil => intro t ht; simp [gridCells] at ht
  | cons row rows ih =>
    intro t ht
    rw [gridCells, List.mem_append] at ht
    rcases ht with ht | ht
    · exact le_of_eq (rowCells_fst r0 0 row t ht).symm
    · exact Nat.le_of_succ_le (ih (r0 + 1) t ht)

/-- Within one scanned row, a formula cell owns exactly one key. -/
theorem rowCells_key_count (r : ℕ) :
    ∀ (c0 : ℕ) (vs : List CellVal) (c : ℕ) (s : String),
      (r, c, s) ∈ rowCells r c0 vs →
      ((rowCells r c0 vs).map (fun t => mkKey t.1 t.2.1)).count (mkKey r c) = 1 := by
  intro c0 vs
  induction vs generalizing c0 with
  | nil => intro c s h; simp [rowCells] at h
  | cons v vs ih =>
    intro c s h
    rw [rowCells, List.mem_append] at h
    rw [rowCells, List.map_append, List.count_append]
    cases hv : formulaValOf v with
    | none =>
      rw [hv] at h
      rcases h with h | h
      · simp at h
      · simp only [List.map_nil, List.count_nil, Nat.zero_add]
        exact ih (c0 + 1) c s h
    | some s2 =>
      rw [hv] at h
      by_cases hc : c = c0
      · subst hc
        have htail :
            ((rowCells r (c + 1) vs).map (fun t => mkKey t.1 t.2.1)).count
              (mkKey r c) = 0 := by
          rw [List.count_eq_zero]
          intro hmem
          rw [List.mem_map] at hmem
          obtain ⟨t, htm, hkey⟩ := hmem
          obtain ⟨_, hc2⟩ := mkKey_inj _ _ _ _ hkey
          have := rowCells_snd_lb r (c + 1) vs t htm
          omega
        simp [htail, List.count_cons]
      · have hhead :
            (([(r, c0, s2)].map (fun t => mkKey t.1 t.2.1)) :
              List String).count (mkKey r c) = 0 := by
          rw [List.count_eq_zero]
          intro hmem
          simp only [List.map_cons, List.map_nil, List.mem_singleton] at hmem
          obtain ⟨_, hc2⟩ := mkKey_inj _ _ _ _ hmem.symm
          exact hc hc2.symm
        rcases h with h | h
        · simp at h
          exact absurd h.1 hc
        · rw [hhead, Nat.zero_add]
          exact ih (c0 + 1) c s h

/-- Within the grid scan, a formula cell owns exactly one key. -/
theorem gridCells_key_count :
    ∀ (r0 : ℕ) (rows : Grid) (r c : ℕ) (s : String),
      (r, c, s) ∈ gridCells r0 rows →
      ((gridCells r0 rows).map (fun t => mkKey t.1 t.2.1)).count (mkKey r c) = 1 := by
  intro r0 rows
  induction rows generalizing r0 with
  | nil => intro r c s h; simp [gridCells] at h
  | cons row rows ih =>
    intro r c s h
    rw [gridCells, List.mem_append] at h
    rw [gridCells, List.map_append, List.count_append]
    rcases h with h | h
    · have hr : r = r0 := rowCells_fst r0 0 row (r, c, s) h
      subst hr
      have htail :
          ((gridCells (r + 1) rows).map (fun t => mkKey t.1 t.2.1)).count
            (mkKey r c) = 0 := by
        rw [List.count_eq_zero]
        intro hmem
        rw [List.mem_map] at hmem
        obtain ⟨t, htm, hkey⟩ := hmem
        obtain ⟨hr2, _⟩ := mkKey_inj _ _ _ _ hkey
        have := gridCells_fst_lb (r + 1) rows t htm
        omega
      rw [htail, rowCells_key_count r 0 row c s h]
    · have hr : r0 + 1 ≤ r := gridCells_fst_lb (r0 + 1) rows (r, c, s) h
      have hhead :
          ((rowCells r0 0 row).map (fun t => mkKey t.1 t.2.1)).count
            (mkKey r c) = 0 := by
        rw [List.count_eq_zero]
        intro hmem
        rw [List.mem_map] at hmem
        obtain ⟨t, htm, hkey⟩ := hmem
        obtain ⟨hr2, _⟩ := mkKey_inj _ _ _ _ hkey
        have := rowCells_fst r0 0 row t htm
        omega
      rw [hhead, Nat.zero_add]
      exact ih (r0 + 1) r c s h

/-- The keys accumulated by the processing fold are exactly the keys of
the scanned formula cells, in order. -/
theorem processFold_keys (g : Grid) :
    ∀ (cells : List (ℕ × ℕ × String)) (st : EnhancedData × Stats × ℕ),
      ((cells.foldl (processStep g) st).1.formulas).map Prod.fst
        = (st.1.formulas.map Prod.fst) ++ cells.map (fun t => mkKey t.1 t.2.1) := by
  intro cells
  induction cells with
  | nil => intro st; simp
  | cons cell cells ih =>
    intro st
    rw [List.foldl_cons, ih]
    simp [processStep]

/-- One statistics update bumps the total by one. -/
theorem updateStatistics_total (info : FormulaInfo) (st : Stats) :
    (updateStatistics info st).total_formulas = st.total_formulas + 1 := by
  unfold updateStatistics
  dsimp only
  (repeat' split) <;> rfl

/-- One statistics update bumps exactly one of calculated/errored. -/
theorem updateStatistics_calc_err (info : FormulaInfo) (st : Stats) :
    (updateStatistics info st).calculated_formulas
      + (updateStatistics info st).error_formulas
      = st.calculated_formulas + st.error_formulas + 1 := by
  unfold updateStatistics
  dsimp only
  (repeat' split) <;> dsimp only <;> omega

/-- Statistics across the processing fold. -/
theorem processFold_stats (g : Grid) :
    ∀ (cells : List (ℕ × ℕ × String)) (st : EnhancedData × Stats × ℕ),
      ((cells.foldl (processStep g) st).2.1.total_formulas
          = st.2.1.total_formulas + cells.length) ∧
      ((cells.foldl (processStep g) st).2.1.calculated_formulas
          + (cells.foldl (processStep g) st).2.1.error_formulas
          = st.2.1.calculated_formulas + st.2.1.error_formulas + cells.length) := by
  intro cells
  induction cells with
  | nil => intro st; exact ⟨rfl, rfl⟩
  | cons cell cells ih =>
    intro st
    rw [List.foldl_cons]
    obtain ⟨h1, h2⟩ := ih (processStep g st cell)
    have hps : (processStep g st cell).2.1
        = updateStatistics
            (calculateFormulaChars g cell.2.2.data cell.1 cell.2.1 st.2.2).1
            st.2.1 := rfl
    rw [hps] at h1 h2
    have ht := updateStatistics_total
      (calculateFormulaChars g cell.2.2.data cell.1 cell.2.1 st.2.2).1 st.2.1
    have hce := updateStatistics_calc_err
      (calculateFormulaChars g cell.2.2.data cell.1 cell.2.1 st.2.2).1 st.2.1
    constructor
    · rw [h1, ht, List.length_cons]
      omega
    · rw [h2, List.length_cons]
      omega

/-- Claim C1: after one processing pass every formula cell has exactly one
result entry under its row_col key, a per-cell failure never aborting the
scan, and the statistics satisfy calculated + errored = total = number of
formula cells. -/
theorem claim1_processing_pass_invariant (g : Grid) :
    ((processSheetFormulas g).2.1.total_formulas = (formulaCells g).length) ∧
    ((processSheetFormulas g).2.1.calculated_formulas
        + (processSheetFormulas g).2.1.error_formulas
        = (processSheetFormulas g).2.1.total_formulas) ∧
    (∀ (r c : ℕ) (s : String), (r, c, s) ∈ formulaCells g →
      (((processSheetFormulas g).1.formulas).map Prod.fst).count (mkKey r c) = 1) := by
  obtain ⟨h1, h2⟩ := processFold_stats g (formulaCells g)
    ({ data := g, formulas := [] }, initStats, 0)
  refine ⟨?_, ?_, ?_⟩
  · simpa [processSheetFormulas, initStats] using h1
  · unfold processSheetFormulas
    simp only [initStats] at h1 h2 ⊢
    omega
  · intro r c s hmem
    unfold processSheetFormulas
    rw [processFold_keys]
    simp only [List.map_nil, List.nil_append]
    exact gridCells_key_count 0 g r c s hmem

/-! ## Witness for claim C1 -/

/-- Witness for claim C1 at a concrete one-cell grid. -/
theorem claim1_processing_pass_invariant_witness :
    (0, 0, "=1+1") ∈ formulaCells [[.cstr "=1+1"]] ∧
    (((processSheetFormulas [[.cstr "=1+1"]]).1.formulas).map Prod.fst).count
      (mkKey 0 0) = 1 :=
  ⟨by decide,
   (claim1_processing_pass_invariant [[.cstr "=1+1"]]).2.2 0 0 "=1+1" (by decide)⟩

/-! ## Claim C7: SimpleMath precedence and division by zero -/

/-- Claim C7: well-formed SimpleMath evaluates with standard precedence,
the caret is exponentiation, and division by zero is the returned DIV/0!
error value, not an exception. -/
theorem claim7_simple_math_semantics :
    evaluateFormula [] "2+3*4" 0 = (.num 14, none, 0) ∧
    evaluateFormula [] "10/0" 0
      = (.text "#DIV/0!", some FormulaError.divZero, 0) ∧
    evaluateFormula [] "2^3" 0 = (.num 8, none, 0) ∧
    evaluateFormula [] "2+3*4-8/2" 0 = (.num 10, none, 0) ∧
    evaluateFormula [] "3/2" 0 = (.num (3 / 2), none, 0) :=
  ⟨rfl, rfl, rfl, rfl, rfl⟩

/-! ## Claim C4: classification priority of conditionals -/

/-- Claim C4: classification applies the six rules first-match-wins; any
formula containing IF( (case-insensitively) anywhere is Conditional and
never plain FunctionCall, and IF(5>3,"big","small") is Conditional and
evaluates to the text big. -/
theorem claim4_conditional_priority :
    (∀ f : List Char, containsIFParen f = true →
      detectFormulaType f = FormulaType.conditional) ∧
    detectFormulaType ('I' :: 'F' :: '(' :: '5' :: '>' :: '3' :: ',' :: '"' ::
      'b' :: 'i' :: 'g' :: '"' :: ',' :: '"' :: 's' :: 'm' :: 'a' :: 'l' ::
      'l' :: '"' :: [')'] : List Char) = FormulaType.conditional ∧
    (evaluateFormula [] (String.mk ('I' :: 'F' :: '(' :: '5' :: '>' :: '3' ::
      ',' :: '"' :: 'b' :: 'i' :: 'g' :: '"' :: ',' :: '"' :: 's' :: 'm' ::
      'a' :: 'l' :: 'l' :: '"' :: [')'])) 0).1 = .text "big" := by
  refine ⟨?_, rfl, rfl⟩
  intro f h
  unfold detectFormulaType
  rw [h]
  rfl

/-- Witness for claim C4 at a concrete conditional formula. -/
theorem claim4_conditional_priority_witness :
    containsIFParen ('g' :: 'i' :: 'f' :: '(' :: ['1'] : List Char) = true ∧
    detectFormulaType ('g' :: 'i' :: 'f' :: '(' :: ['1'] : List Char)
      = FormulaType.conditional :=
  ⟨rfl, claim4_conditional_priority.1 _ rfl⟩

/-! ## Claim C2 (corrected): error propagation from sub-expressions -/

/-- Counterexample to claim C2 as stated: the sub-expression SQRT(-1)
alone yields the NUM error, yet SUM(SQRT(-1),5) evaluates to the partial
numeric result 5 with no error — the argument is degraded to a text
literal and silently ignored by the aggregate, absorbing the error. -/
theorem claim2_counterexample :
    evaluateFormula [] "SUM(SQRT(-1),5)" 0 = (.num 5, none, 0) ∧
    evaluateFormula [] "SQRT(-1)" 0
      = (.text "#NUM!", some FormulaError.numError, 0) :=
  ⟨rfl, rfl⟩

/-- Claim C2 as amended: an error returned by the applied top-level
function becomes the whole formula's error; errors arising inside
argument sub-expressions do not propagate (an erroring cell-reference
argument degrades to 0 and a nested call degrades to its literal text). -/
theorem claim2_amended_function_error_propagates (sd : Grid) (f : List Char)
    (d : ℕ) (name argsStr : List Char) (e : FormulaError)
    (h0 : errorOfUpper (upChars f) = none)
    (h1 : isSimpleMathChars f = false)
    (h2 : isCellRefFull f = false)
    (h3 : hasFuncCallChars f = true)
    (h4 : parseFuncCall f = some (name, argsStr))
    (h5 : supportedFunctionNames.contains (String.mk (upChars name)) = true)
    (h6 : applyFunction (String.mk (upChars name))
            (parseFunctionArgsChars sd argsStr d).1 = .error e) :
    evaluateFormulaChars sd f d
      = (.text e.value, some e, (parseFunctionArgsChars sd argsStr d).2) := by
  unfold evaluateFormulaChars
  rw [h0]
  rw [if_neg (by simp [h1]), if_neg (by simp [h2]), if_pos h3]
  unfold evaluateFunctionChars
  rw [h4]
  dsimp only
  rw [if_pos h5, h6]

/-- Witness for the amended claim C2 at SQRT(-1). -/
theorem claim2_amended_witness :
    parseFuncCall ('S' :: 'Q' :: 'R' :: 'T' :: '(' :: '-' :: '1' :: [')'])
      = some ('S' :: 'Q' :: 'R' :: ['T'], '-' :: ['1']) ∧
    evaluateFormulaChars [] ('S' :: 'Q' :: 'R' :: 'T' :: '(' :: '-' :: '1' :: [')']) 0
      = (.text FormulaError.numError.value, some FormulaError.numError,
         (parseFunctionArgsChars [] ('-' :: ['1']) 0).2) :=
  ⟨rfl,
   claim2_amended_function_error_propagates [] _ 0 ('S' :: 'Q' :: 'R' :: ['T'])
     ('-' :: ['1']) .numError rfl rfl rfl rfl rfl rfl rfl⟩

/-! ## Claim C8: dependency extraction -/

/-- Claim C8: dependency extraction returns a deduplicated set; a bare
cell token occurring inside a collected range token is dropped; the
dependencies of SUM(A1:A10)+B1 are exactly the range A1:A10 and the cell
B1, with no separate A1/A10 entries. -/
theorem claim8_dependencies :
    extractDependencies "SUM(A1:A10)+B1" = ({"A1:A10", "B1"} : Finset String) ∧
    (∀ (f : List Char) (s : String), s ∈ extractDependenciesChars f →
      s ∈ (rangeRefsOf f).map String.mk ∨
      (s ∈ (cellRefsOf f).map String.mk ∧
        ∀ r ∈ rangeRefsOf f, substrChars s.data r = false)) := by
  constructor
  · decide
  · intro f s hs
    unfold extractDependenciesChars at hs
    rw [List.mem_toFinset, List.map_append, List.mem_append] at hs
    rcases hs with hs | hs
    · exact Or.inl hs
    · rw [List.mem_map] at hs
      obtain ⟨l, hl, hmk⟩ := hs
      unfold keptCellRefs at hl
      rw [List.mem_filter] at hl
      refine Or.inr ⟨List.mem_map.mpr ⟨l, hl.1, hmk⟩, ?_⟩
      intro r hr
      have h2 := hl.2
      simp only [decide_eq_true_eq, List.any_eq_true, not_exists, not_and,
        Bool.not_eq_true] at h2
      have hsl : s.data = l := by rw [← hmk]
      rw [hsl]
      exact h2 r hr

/-- Witness for claim C8's membership characterization at B1. -/
theorem claim8_dependencies_witness :
    "B1" ∈ extractDependenciesChars ('S' :: 'U' :: 'M' :: '(' :: 'A' :: '1' ::
      ':' :: 'A' :: '1' :: '0' :: ')' :: '+' :: 'B' :: ['1']) ∧
    ("B1" ∈ (rangeRefsOf ('S' :: 'U' :: 'M' :: '(' :: 'A' :: '1' :: ':' ::
        'A' :: '1' :: '0' :: ')' :: '+' :: 'B' :: ['1'])).map String.mk ∨
      ("B1" ∈ (cellRefsOf ('S' :: 'U' :: 'M' :: '(' :: 'A' :: '1' :: ':' ::
          'A' :: '1' :: '0' :: ')' :: '+' :: 'B' :: ['1'])).map String.mk ∧
        ∀ r ∈ rangeRefsOf ('S' :: 'U' :: 'M' :: '(' :: 'A' :: '1' :: ':' ::
          'A' :: '1' :: '0' :: ')' :: '+' :: 'B' :: ['1']),
          substrChars ("B1").data r = false)) :=
  ⟨by decide, claim8_dependencies.2 _ "B1" (by decide)⟩

/-! ## Claim C6: malformed SimpleMath rejected before evaluation -/

/-- Characters of the SimpleMath class all lie below the lowercase ASCII
letters. -/
theorem simpleMathCh_toNat_lt (c : Char) (h : isSimpleMathCh c = true) :
    c.toNat < 97 := by
  unfold isSimpleMathCh isDigitCh isWsCh isOpCh at h
  simp only [Bool.or_eq_true, Bool.and_eq_true, decide_eq_true_eq] at h
  rcases h with ((((h | h) | h) | h) | h) | h
  · omega
  · rcases h with ((((h | h) | h) | h) | h) | h <;> first | omega | (subst h; decide)
  · rcases h with ((((h | h) | h) | h) | h) | h <;> first | omega | (subst h; decide)
  · subst h; decide
  · subst h; decide
  · subst h; decide

/-- Characters of the SimpleMath class are fixed by uppercasing. -/
theorem upCh_simpleMath (c : Char) (h : isSimpleMathCh c = true) :
    upCh c = c := by
  have hlt := simpleMathCh_toNat_lt c h
  unfold upCh
  rw [if_neg]
  simp only [Bool.and_eq_true, decide_eq_true_eq, not_and, not_le]
  omega

/-- The uppercasing in the error-literal test is the identity on SimpleMath
text. -/
theorem upChars_simpleMath (f : List Char) (h : isSimpleMathChars f = true) :
    upChars f = f := by
  unfold isSimpleMathChars at h
  simp only [Bool.and_eq_true, List.all_eq_true] at h
  unfold upChars
  have key : ∀ l : List Char, (∀ x ∈ l, upCh x = x) → l.map upCh = l := by
    intro l
    induction l with
    | nil => intro _; rfl
    | cons c cs ih =>
      intro hl
      rw [List.map_cons, hl c (List.mem_cons_self c cs),
        ih (fun x hx => hl x (List.mem_cons_of_mem c hx))]
  exact key f (fun x hx => upCh_simpleMath x (h.2 x hx))

/-- Every canonical error string contains the hash character. -/
theorem hash_mem_error_value (e : FormulaError) : '#' ∈ e.value.data := by
  cases e <;> decide

/-- SimpleMath text is never one of the canonical error literals. -/
theorem simpleMath_not_error_literal (f : List Char)
    (h : isSimpleMathChars f = true) : errorOfUpper (upChars f) = none := by
  rw [upChars_simpleMath f h]
  unfold errorOfUpper
  cases hf : allFormulaErrors.find? (fun e => f = e.value.data) with
  | none => rfl
  | some e =>
    exfalso
    have hp := List.find?_some hf
    rw [decide_eq_true_eq] at hp
    have hmem : '#' ∈ f := hp ▸ hash_mem_error_value e
    unfold isSimpleMathChars at h
    simp only [Bool.and_eq_true, List.all_eq_true] at h
    have := h.2 '#' hmem
    simp [isSimpleMathCh, isDigitCh, isWsCh, isOpCh] at this

/-- Claim C6: a SimpleMath formula with a leading/trailing binary operator
or consecutive operator characters reports the VALUE error before any
arithmetic evaluation is attempted. -/
theorem claim6_malformed_simple_math (sd : Grid) (f : List Char) (d : ℕ)
    (h1 : isSimpleMathChars f = true)
    (h2 : (hasConsecOps f || hasBadEdgeOp f) = true) :
    evaluateFormulaChars sd f d
      = (.text FormulaError.valueError.value, some FormulaError.valueError, d) := by
  unfold evaluateFormulaChars
  rw [simpleMath_not_error_literal f h1]
  rw [if_pos h1, if_pos h2]

/-- Witness for claim C6 at the malformed formula 1++2. -/
theorem claim6_malformed_simple_math_witness :
    isSimpleMathChars ('1' :: '+' :: '+' :: ['2']) = true ∧
    evaluateFormulaChars [] ('1' :: '+' :: '+' :: ['2']) 0
      = (.text FormulaError.valueError.value, some FormulaError.valueError, 0) :=
  ⟨rfl, claim6_malformed_simple_math [] _ 0 rfl rfl⟩

/-! ## Claim C3: blank/out-of-bounds asymmetry -/

/-- The bare-reference miss test: target row or column beyond the grid, or
the target cell blank. -/
def cellBlankOrOOB (sd : Grid) (row col : ℤ) : Bool :=
  match cellVal? sd row col with
  | none => true
  | some v =>
    match v with
    | .cblank => true
    | _ => false

/-- A missing or blank target resolves to the number 0 in the grid
lookup. -/
theorem cellLookup_miss (sd : Grid) (row col : ℤ)
    (hmiss : cellBlankOrOOB sd row col = true) :
    cellLookup sd row col = (.num 0, none) := by
  unfold cellBlankOrOOB at hmiss
  unfold cellLookup
  cases hv : cellVal? sd row col with
  | none => rfl
  | some v =>
    rw [hv] at hmiss
    cases v with
    | cblank => rfl
    | cnum q => simp at hmiss
    | cstr s => simp at hmiss

/-- The values range resolution collects, written as the row-major join of
the per-cell contributions over the clamped rectangle: bounds clamping
skips out-of-range cells and the contribution of a blank cell is empty. -/
def rangeValuesSpec (sd : Grid) (ref : List Char) : List Value :=
  let p := parseRangeChars ref
  let startRow := p.2.1
  let startCol := p.2.2.1
  let endRow := p.2.2.2.1
  let endCol := p.2.2.2.2
  if startRow = -1 then []
  else
    let lo := startRow.toNat
    let hi := (min (endRow + 1) (sd.length : ℤ)).toNat
    (List.range' lo (hi - lo)).flatMap (fun r =>
      let rowL := sd.getD r []
      let cLo := startCol.toNat
      let cHi := (min (endCol + 1) (rowL.length : ℤ)).toNat
      ((List.range' cLo (cHi - cLo)).map (fun c =>
        rangeCellContrib sd (rowL.getD c .cblank))).flatten)

/-- A fold that appends a per-element block is the flattened map. -/
theorem appendFold {β : Type} (f : β → List Value) :
    ∀ (l : List β) (acc : List Value × ℕ),
      l.foldl (fun a x => (a.1 ++ f x, a.2)) acc
        = (acc.1 ++ (l.map f).flatten, acc.2) := by
  intro l
  induction l with
  | nil => intro acc; simp
  | cons x xs ih =>
    intro acc
    rw [List.foldl_cons, ih]
    simp [List.append_assoc]

/-- Within the depth budget, range resolution computes exactly the spec
join of per-cell contributions and restores the depth counter. -/
theorem resolveRangeChars_spec (sd : Grid) (ref : List Char) (d : ℕ)
    (hd : d ≤ 10) :
    resolveRangeChars sd ref d = (rangeValuesSpec sd ref, d) := by
  unfold resolveRangeChars rangeValuesSpec
  dsimp only
  by_cases h1 : (parseRangeChars ref).2.1 = -1
  · simp [h1]
  · rw [if_neg h1, if_neg h1, if_neg (by omega)]
    simp only [rangeCellStep_eq]
    have hinner : ∀ (rowL : List CellVal) (cols : List ℕ)
        (acc : List Value × ℕ),
        cols.foldl (fun a c =>
          (a.1 ++ rangeCellContrib sd (rowL.getD c .cblank), a.2)) acc
        = (acc.1 ++ (cols.map (fun c =>
            rangeCellContrib sd (rowL.getD c .cblank))).flatten, acc.2) :=
      fun rowL cols acc => appendFold _ cols acc
    have houter : ∀ (rows : List ℕ) (acc : List Value × ℕ),
        rows.foldl (fun acc r =>
          (List.range' (parseRangeChars ref).2.2.1.toNat
            ((min ((parseRangeChars ref).2.2.2.2 + 1)
              ((sd.getD r []).length : ℤ)).toNat
              - (parseRangeChars ref).2.2.1.toNat)).foldl
            (fun a c =>
              (a.1 ++ rangeCellContrib sd ((sd.getD r []).getD c .cblank), a.2))
            acc) acc
        = (acc.1 ++ (rows.map (fun r =>
            ((List.range' (parseRangeChars ref).2.2.1.toNat
              ((min ((parseRangeChars ref).2.2.2.2 + 1)
                ((sd.getD r []).length : ℤ)).toNat
                - (parseRangeChars ref).2.2.1.toNat)).map
              (fun c => rangeCellContrib sd ((sd.getD r []).getD c .cblank))).flatten)).flatten,
           acc.2) := by
      intro rows
      induction rows with
      | nil => intro acc; simp
      | cons r rs ih =>
        intro acc
        rw [List.foldl_cons, ih, hinner]
        simp [List.append_assoc]
    rw [houter]
    simp only [List.nil_append, List.flatMap_def]

/-- Claim C3: a bare single-cell reference whose target is blank or out of
bounds evaluates to Number 0, while during range iteration the same miss
contributes nothing (bounds are clamped away and a blank contributes the
empty list), so SUM/AVERAGE/COUNT over a range with blanks are computed
over the present numeric values only. -/
theorem claim3_blank_asymmetry :
    (∀ (sd : Grid) (ref : List Char) (sh : Option String) (row col : ℤ),
      parseCellChars ref = (sh, row, col) → ¬ row = -1 → ¬ col = -1 →
      cellBlankOrOOB sd row col = true →
      resolveCellChars sd ref = (.num 0, none)) ∧
    (∀ sd : Grid, rangeCellContrib sd .cblank = []) ∧
    (∀ (sd : Grid) (ref : List Char) (d : ℕ), d ≤ 10 →
      resolveRangeChars sd ref d = (rangeValuesSpec sd ref, d)) ∧
    (evaluateFormula [[.cnum 100], [.cblank], [.cnum 200]] "SUM(A1:A3)" 0
        = (.num 300, none, 0) ∧
      evaluateFormula [[.cnum 100], [.cblank], [.cnum 200]] "AVERAGE(A1:A3)" 0
        = (.num 150, none, 0) ∧
      evaluateFormula [[.cnum 100], [.cblank], [.cnum 200]] "COUNT(A1:A3)" 0
        = (.num 2, none, 0) ∧
      evaluateFormula [[.cnum 100], [.cblank], [.cnum 200]] "A2" 0
        = (.num 0, none, 0) ∧
      evaluateFormula [[.cnum 100], [.cblank], [.cnum 200]] "Z999" 0
        = (.num 0, none, 0)) := by
  refine ⟨?_, fun sd => rfl, resolveRangeChars_spec, rfl, rfl, rfl, rfl, rfl⟩
  intro sd ref sh row col hp hr hc hmiss
  unfold resolveCellChars
  rw [hp]
  dsimp only
  rw [if_neg (by simp [hr, hc])]
  exact cellLookup_miss sd row col hmiss

/-- Witness for claim C3 at the out-of-range reference Z999. -/
theorem claim3_blank_asymmetry_witness :
    parseCellChars ('Z' :: '9' :: '9' :: ['9']) = (none, 998, 25) ∧
    cellBlankOrOOB [[.cnum 100], [.cblank], [.cnum 200]] 998 25 = true ∧
    resolveCellChars [[.cnum 100], [.cblank], [.cnum 200]]
      ('Z' :: '9' :: '9' :: ['9']) = (.num 0, none) :=
  ⟨rfl, rfl,
   claim3_blank_asymmetry.1 [[.cnum 100], [.cblank], [.cnum 200]] _ none 998 25
     rfl (by decide) (by decide) rfl⟩

/-! ## Claim C5 (corrected): the reference grammar and parse_cell

The spec grammar is (SHEETNAME!)? $? COLLETTERS $? ROWDIGITS, matched
against the WHOLE token.  The source regex is applied with re.match,
which accepts any token with a matching prefix; the definitions below
state the grammar (specCellParse demands full consumption) and the claim
is settled against them. -/

/-- Modelled from the spec grammar: the core $? COLLETTERS $? ROWDIGITS
matched against the whole input, yielding (row, col). -/
def specCoreParse (l : List Char) : Option (ℤ × ℤ) :=
  let l1 := stripDollar l
  let letters := l1.takeWhile isLetterCh
  if letters.isEmpty then none
  else
    let l3 := stripDollar (l1.drop letters.length)
    if l3.isEmpty then none
    else if l3.all isDigitCh then
      some ((digitsVal l3 : ℤ) - 1, lettersToCol letters)
    else none

/-- Modelled from the spec grammar: (SHEETNAME!)? core, matched against
the whole token; the sheet name is the (nonempty, bang-free) part before
the unique possible separator. -/
def specCellParse (t : List Char) : Option (Option String × ℤ × ℤ) :=
  match splitAtBang t with
  | some (sheet, after) =>
    match specCoreParse after with
    | some (row, col) => some (some (String.mk sheet), row, col)
    | none => none
  | none =>
    match specCoreParse t with
    | some (row, col) => some (none, row, col)
    | none => none

/-- Does some prefix of the token match the full grammar? -/
def hasCellTokenPrefixSpec (t : List Char) : Bool :=
  (List.range (t.length + 1)).any (fun k => (specCellParse (t.take k)).isSome)

/-- Dropping the length of the matched prefix is dropWhile. -/
theorem drop_takeWhile_length (p : Char → Bool) (l : List Char) :
    l.drop (l.takeWhile p).length = l.dropWhile p := by
  induction l with
  | nil => rfl
  | cons c cs ih =>
    by_cases hc : p c
    · rw [List.takeWhile_cons_of_pos hc, List.dropWhile_cons_of_pos hc,
        List.length_cons, List.drop_succ_cons]
      exact ih
    · rw [List.takeWhile_cons_of_neg hc, List.dropWhile_cons_of_neg hc]
      rfl

/-- takeWhile over a block of satisfying elements followed by a
non-satisfying head. -/
theorem takeWhile_block (p : Char → Bool) (xs ys : List Char)
    (hx : ∀ x ∈ xs, p x = true)
    (hy : ∀ y, ys.head? = some y → p y = false) :
    (xs ++ ys).takeWhile p = xs := by
  rw [List.takeWhile_append_of_pos hx]
  cases ys with
  | nil => simp
  | cons y ys2 =>
    rw [List.takeWhile_cons_of_neg (by simp [hy y rfl])]
    simp

/-- A list of satisfying elements is its own takeWhile. -/
theorem takeWhile_of_all (p : Char → Bool) (l : List Char)
    (h : ∀ x ∈ l, p x = true) : l.takeWhile p = l := by
  have := takeWhile_block p l [] h (fun y hy => by simp at hy)
  simpa using this

/-- Letters are neither the dollar sign nor the bang nor digits. -/
theorem isLetterCh_facts (c : Char) (h : isLetterCh c = true) :
    ¬ c = '$' ∧ ¬ c = '!' ∧ isDigitCh c = false := by
  unfold isLetterCh at h
  simp only [Bool.or_eq_true, Bool.and_eq_true, decide_eq_true_eq] at h
  refine ⟨fun hc => ?_, fun hc => ?_, ?_⟩
  · subst hc; rcases h with h | h <;> exact absurd h (by decide)
  · subst hc; rcases h with h | h <;> exact absurd h (by decide)
  · cases hd : isDigitCh c with
    | false => rfl
    | true =>
      exfalso
      unfold isDigitCh at hd
      simp only [Bool.and_eq_true, decide_eq_true_eq] at hd
      rcases h with h | h <;> omega

/-- Digits are neither the dollar sign nor the bang nor letters. -/
theorem isDigitCh_facts (c : Char) (h : isDigitCh c = true) :
    ¬ c = '$' ∧ ¬ c = '!' ∧ isLetterCh c = false := by
  unfold isDigitCh at h
  simp only [Bool.and_eq_true, decide_eq_true_eq] at h
  refine ⟨fun hc => ?_, fun hc => ?_, ?_⟩
  · subst hc; exact absurd h (by decide)
  · subst hc; exact absurd h (by decide)
  · cases hl : isLetterCh c with
    | false => rfl
    | true =>
      exfalso
      unfold isLetterCh at hl
      simp only [Bool.or_eq_true, Bool.and_eq_true, decide_eq_true_eq] at hl
      rcases hl with hl | hl <;> omega

/-- stripDollar on a non-dollar head is the identity. -/
theorem stripDollar_ne (l : List Char)
    (h : ∀ c, l.head? = some c → ¬ c = '$') : stripDollar l = l := by
  unfold stripDollar
  cases l with
  | nil => rfl
  | cons c cs =>
    rw [if_neg (by
      intro hc
      simp only [List.head?_cons, Option.some.injEq] at hc
      exact h c rfl hc)]

/-- stripDollar consumes exactly one leading dollar. -/
theorem stripDollar_dollar (l : List Char) :
    stripDollar ('$' :: l) = l := rfl

/-- The consumed part of stripDollar prepends back to the input. -/
theorem stripDollar_decomp (l : List Char) :
    (if l.head? = some '$' then ['$'] else []) ++ stripDollar l = l := by
  unfold stripDollar
  by_cases hh : l.head? = some '$'
  · rw [if_pos hh, if_pos hh]
    cases l with
    | nil => simp at hh
    | cons c cs =>
      simp only [List.head?_cons, Option.some.injEq] at hh
      rw [hh]
      rfl
  · rw [if_neg hh, if_neg hh]
    rfl

/-- A full grammar-core match makes the source scanner succeed with
nothing left over, at the same coordinates. -/
theorem scanCore_of_spec (l : List Char) (row col : ℤ)
    (h : specCoreParse l = some (row, col)) :
    scanCore l = some (col, row, []) := by
  unfold specCoreParse at h
  unfold scanCore
  dsimp only at h ⊢
  by_cases hl : (((stripDollar l).takeWhile isLetterCh).isEmpty : Bool) = true
  · rw [if_pos hl] at h; exact absurd h (by simp)
  · rw [if_neg hl] at h
    rw [if_neg hl]
    set l1 := stripDollar l with hl1
    set l3 := stripDollar (l1.drop (l1.takeWhile isLetterCh).length) with hl3
    by_cases h3 : (l3.isEmpty : Bool) = true
    · rw [if_pos h3] at h; exact absurd h (by simp)
    · rw [if_neg h3] at h
      by_cases hall : l3.all isDigitCh = true
      · rw [if_pos hall] at h
        rw [List.all_eq_true] at hall
        rw [takeWhile_of_all isDigitCh l3 hall]
        rw [if_neg (by simpa using h3)]
        simp only [List.drop_length]
        simp only [Option.some.injEq, Prod.mk.injEq] at h
        rw [h.1, h.2]
      · rw [if_neg hall] at h; exact absurd h (by simp)

/-- The source scanner consuming everything is exactly a full
grammar-core match. -/
theorem spec_of_scanCore (l : List Char) (row col : ℤ)
    (h : scanCore l = some (col, row, [])) :
    specCoreParse l = some (row, col) := by
  unfold scanCore at h
  unfold specCoreParse
  dsimp only at h ⊢
  by_cases hl : (((stripDollar l).takeWhile isLetterCh).isEmpty : Bool) = true
  · rw [if_pos hl] at h; exact absurd h (by simp)
  · rw [if_neg hl] at h
    rw [if_neg hl]
    set l1 := stripDollar l with hl1
    set l3 := stripDollar (l1.drop (l1.takeWhile isLetterCh).length) with hl3
    by_cases hd : ((l3.takeWhile isDigitCh).isEmpty : Bool) = true
    · rw [if_pos hd] at h; exact absurd h (by simp)
    · rw [if_neg hd] at h
      simp only [Option.some.injEq, Prod.mk.injEq] at h
      obtain ⟨hcol, hrow, hrest⟩ := h
      have hlen : l3.length ≤ (l3.takeWhile isDigitCh).length := by
        rw [← List.drop_eq_nil_iff]
        exact hrest
      have hfull : l3.takeWhile isDigitCh = l3 := by
        have hpre := List.takeWhile_prefix (l := l3) isDigitCh
        exact List.IsPrefix.eq_of_length_le hpre hlen
      have h3ne : ¬ (l3.isEmpty : Bool) = true := by
        rw [List.isEmpty_iff] at hd ⊢
        intro h0
        exact hd (by rw [h0]; rfl)
      rw [if_neg h3ne]
      have hall : l3.all isDigitCh = true := by
        rw [← hfull]
        exact List.all_takeWhile
      rw [if_pos hall, ← hfull, hrow, hcol]

/-- Building a core token from its pieces parses to the expected
coordinates. -/
theorem specCoreParse_build (letters digits d1 d2 : List Char)
    (hd1 : d1 = [] ∨ d1 = ['$']) (hd2 : d2 = [] ∨ d2 = ['$'])
    (hlne : ¬ letters = []) (hlall : ∀ x ∈ letters, isLetterCh x = true)
    (hdne : ¬ digits = []) (hdall : ∀ x ∈ digits, isDigitCh x = true) :
    specCoreParse (d1 ++ letters ++ d2 ++ digits)
      = some ((digitsVal digits : ℤ) - 1, lettersToCol letters) := by
  cases letters with
  | nil => exact absurd rfl hlne
  | cons c0 ls =>
  cases digits with
  | nil => exact absurd rfl hdne
  | cons e0 ds =>
  have hc0 := hlall c0 (List.mem_cons_self c0 ls)
  have he0 := hdall e0 (List.mem_cons_self e0 ds)
  have hblockhead : ∀ y, (d2 ++ (e0 :: ds) : List Char).head? = some y →
      isLetterCh y = false := by
    intro y hy
    rcases hd2 with rfl | rfl
    · simp only [List.nil_append, List.head?_cons, Option.some.injEq] at hy
      subst hy
      exact (isDigitCh_facts e0 he0).2.2
    · simp only [List.cons_append, List.head?_cons, Option.some.injEq] at hy
      subst hy
      rfl
  have htw : ((c0 :: ls) ++ (d2 ++ (e0 :: ds))
      : List Char).takeWhile isLetterCh = c0 :: ls :=
    takeWhile_block isLetterCh (c0 :: ls) _ hlall hblockhead
  have hsd2 : stripDollar (d2 ++ (e0 :: ds)) = e0 :: ds := by
    rcases hd2 with rfl | rfl
    · rw [List.nil_append]
      refine stripDollar_ne _ (fun c hc => ?_)
      simp only [List.head?_cons, Option.some.injEq] at hc
      rw [← hc]
      exact (isDigitCh_facts e0 he0).1
    · rw [List.cons_append, List.nil_append]
      exact stripDollar_dollar _
  have hsd1 : stripDollar (d1 ++ (c0 :: ls) ++ d2 ++ (e0 :: ds))
      = (c0 :: ls) ++ (d2 ++ (e0 :: ds)) := by
    rcases hd1 with rfl | rfl
    · simp only [List.nil_append, List.append_assoc]
      refine stripDollar_ne _ (fun c hc => ?_)
      simp only [List.cons_append, List.head?_cons, Option.some.injEq] at hc
      rw [← hc]
      exact (isLetterCh_facts c0 hc0).1
    · simp only [List.cons_append, List.nil_append, List.append_assoc]
      exact stripDollar_dollar _
  unfold specCoreParse
  dsimp only
  rw [hsd1, htw]
  rw [if_neg (by simp)]
  rw [List.drop_left, hsd2]
  rw [if_neg (by simp)]
  rw [if_pos (List.all_eq_true.mpr hdall)]

/-- A successful source core scan exposes a grammar-matching, bang-free
prefix with the same coordinates. -/
theorem scanCore_prefix (l : List Char) (col row : ℤ) (rest : List Char)
    (h : scanCore l = some (col, row, rest)) :
    ∃ p, p ++ rest = l ∧ ('!' ∉ p) ∧ specCoreParse p = some (row, col) := by
  unfold scanCore at h
  dsimp only at h
  by_cases hl : (((stripDollar l).takeWhile isLetterCh).isEmpty : Bool) = true
  · rw [if_pos hl] at h; exact absurd h (by simp)
  · rw [if_neg hl] at h
    set l1 := stripDollar l with hl1
    set letters := l1.takeWhile isLetterCh with hletters
    set l2 := l1.drop letters.length with hl2
    set l3 := stripDollar l2 with hl3
    set digits := l3.takeWhile isDigitCh with hdigits
    by_cases hd : (digits.isEmpty : Bool) = true
    · rw [if_pos hd] at h; exact absurd h (by simp)
    · rw [if_neg hd] at h
      simp only [Option.some.injEq, Prod.mk.injEq] at h
      obtain ⟨hcol, hrow, hrest⟩ := h
      have hlall : ∀ x ∈ letters, isLetterCh x = true := by
        intro x hx
        exact List.mem_takeWhile_imp hx
      have hdall : ∀ x ∈ digits, isDigitCh x = true := by
        intro x hx
        exact List.mem_takeWhile_imp hx
      have hlne : ¬ letters = [] := by
        rw [List.isEmpty_iff] at hl; exact hl
      have hdne : ¬ digits = [] := by
        rw [List.isEmpty_iff] at hd; exact hd
      refine ⟨(if l.head? = some '$' then ['$'] else []) ++ letters
        ++ (if l2.head? = some '$' then ['$'] else []) ++ digits, ?_, ?_, ?_⟩
      · -- the pieces concatenate back to the input
        have e1 : (if l.head? = some '$' then ['$'] else []) ++ l1 = l :=
          stripDollar_decomp l
        have e2 : letters ++ l2 = l1 := by
          rw [hl2]
          have hpre := List.takeWhile_prefix (l := l1) isLetterCh
          rw [← hletters] at hpre
          obtain ⟨t, ht⟩ := hpre
          rw [← ht, List.drop_left]
        have e3 : (if l2.head? = some '$' then ['$'] else []) ++ l3 = l2 :=
          stripDollar_decomp l2
        have e4 : digits ++ rest = l3 := by
          rw [← hrest, hdigits]
          have hpre := List.takeWhile_prefix (l := l3) isDigitCh
          obtain ⟨t, ht⟩ := hpre
          rw [← hdigits] at ht ⊢
          rw [← ht, List.drop_left]
        calc ((if l.head? = some '$' then ['$'] else []) ++ letters
            ++ (if l2.head? = some '$' then ['$'] else []) ++ digits) ++ rest
            = (if l.head? = some '$' then ['$'] else []) ++ (letters
              ++ ((if l2.head? = some '$' then ['$'] else []) ++ (digits ++ rest))) := by
              simp [List.append_assoc]
          _ = l := by rw [e4, e3, e2, e1]
      · -- the prefix contains no bang
        intro hmem
        simp only [List.mem_append] at hmem
        rcases hmem with ((hmem | hmem) | hmem) | hmem
        · by_cases hh : l.head? = some '$'
          · rw [if_pos hh] at hmem; simp at hmem
          · rw [if_neg hh] at hmem; simp at hmem
        · exact (isLetterCh_facts _ (hlall _ hmem)).2.1 rfl
        · by_cases hh : l2.head? = some '$'
          · rw [if_pos hh] at hmem; simp at hmem
          · rw [if_neg hh] at hmem; simp at hmem
        · exact (isDigitCh_facts _ (hdall _ hmem)).2.1 rfl
      · -- the prefix parses to the same coordinates
        rw [specCoreParse_build letters digits
          (if l.head? = some '$' then ['$'] else [])
          (if l2.head? = some '$' then ['$'] else [])
          (by split <;> simp) (by split <;> simp)
          hlne hlall hdne hdall]
        rw [hrow, hcol]

/-- A successful bang split decomposes the token. -/
theorem splitAtBang_some (t sheet after : List Char)
    (h : splitAtBang t = some (sheet, after)) :
    t = sheet ++ '!' :: after ∧ ¬ sheet = [] ∧ '!' ∉ sheet := by
  unfold splitAtBang at h
  dsimp only at h
  split at h
  · rename_i after2 heq
    split at h
    · exact absurd h (by simp)
    · rename_i hne
      simp only [Option.some.injEq, Prod.mk.injEq] at h
      obtain ⟨h1, h2⟩ := h
      obtain ⟨u, hu⟩ := List.takeWhile_prefix (l := t) (fun c => ¬ c = '!')
      have hud := List.drop_left (t.takeWhile (fun c => ¬ c = '!')) u
      rw [hu] at hud
      have hu2 : u = '!' :: after2 := hud.symm.trans heq
      refine ⟨?_, ?_, ?_⟩
      · calc t = t.takeWhile (fun c => ¬ c = '!') ++ u := hu.symm
          _ = sheet ++ '!' :: after := by rw [h1, hu2, h2]
      · rw [← h1]
        simpa using hne
      · intro hmem
        rw [← h1] at hmem
        have := List.mem_takeWhile_imp hmem
        simp at this
  · exact absurd h (by simp)

/-- Splitting a token built from a bang-free nonempty sheet part. -/
theorem splitAtBang_build (a b : List Char) (ha : ¬ a = []) (hab : '!' ∉ a) :
    splitAtBang (a ++ '!' :: b) = some (a, b) := by
  unfold splitAtBang
  dsimp only
  have htw : (a ++ '!' :: b).takeWhile (fun c => ¬ c = '!') = a := by
    refine takeWhile_block _ a _ (fun x hx => ?_) (fun y hy => ?_)
    · simp only [decide_eq_true_eq]
      intro hx2
      exact hab (hx2 ▸ hx)
    · simp only [List.head?_cons, Option.some.injEq] at hy
      rw [← hy]
      simp
  rw [htw, List.drop_left]
  show (if a.isEmpty = true then none else some (a, b)) = some (a, b)
  rw [if_neg (by simpa [List.isEmpty_iff] using ha)]

/-- A bang-free token admits no bang split. -/
theorem splitAtBang_none (p : List Char) (hp : '!' ∉ p) :
    splitAtBang p = none := by
  unfold splitAtBang
  dsimp only
  have htw : p.takeWhile (fun c => ¬ c = '!') = p := by
    refine takeWhile_of_all _ p (fun x hx => ?_)
    simp only [decide_eq_true_eq]
    intro hx2
    exact hp (hx2 ▸ hx)
  rw [htw, List.drop_length]

/-- A grammar-matching prefix witnesses the prefix test. -/
theorem hasPrefix_of_specCellParse (t p rest : List Char)
    (heq : p ++ rest = t) (hs : (specCellParse p).isSome = true) :
    hasCellTokenPrefixSpec t = true := by
  unfold hasCellTokenPrefixSpec
  rw [List.any_eq_true]
  refine ⟨p.length, ?_, ?_⟩
  · rw [List.mem_range, ← heq, List.length_append]
    omega
  · rw [← heq, List.take_left]
    exact hs

/-- A successful bare core scan of the token yields a grammar-matching
prefix. -/
theorem hasPrefix_of_bare_scan (t : List Char) (col row : ℤ)
    (rest : List Char) (h : scanCore t = some (col, row, rest)) :
    hasCellTokenPrefixSpec t = true := by
  obtain ⟨p, hp, hpb, hps⟩ := scanCore_prefix t col row rest h
  refine hasPrefix_of_specCellParse t p rest hp ?_
  unfold specCellParse
  rw [splitAtBang_none p hpb, hps]
  rfl

/-- A successful sheet-qualified scan yields a grammar-matching prefix. -/
theorem hasPrefix_of_sheet_scan (t sheet after : List Char) (col row : ℤ)
    (rest : List Char) (hsb : splitAtBang t = some (sheet, after))
    (h : scanCore after = some (col, row, rest)) :
    hasCellTokenPrefixSpec t = true := by
  obtain ⟨ht, hne, hbang⟩ := splitAtBang_some t sheet after hsb
  obtain ⟨p, hp, hpb, hps⟩ := scanCore_prefix after col row rest h
  refine hasPrefix_of_specCellParse t (sheet ++ '!' :: p) rest ?_ ?_
  · rw [ht, ← hp]
    simp
  · unfold specCellParse
    rw [splitAtBang_build sheet p hne hbang]
    dsimp only
    rw [hps]
    rfl

/-- parse_cell_reference agrees with the grammar on full-token matches. -/
theorem parseCell_refines_spec (l : List Char) (out : Option String × ℤ × ℤ)
    (h : specCellParse (trimChars l) = some out) : parseCellChars l = out := by
  unfold specCellParse at h
  unfold parseCellChars
  dsimp only
  cases hsb : splitAtBang (trimChars l) with
  | none =>
    rw [hsb] at h
    dsimp only at h ⊢
    cases hsc : specCoreParse (trimChars l) with
    | none => rw [hsc] at h; exact absurd h (by simp)
    | some rc =>
      obtain ⟨row, col⟩ := rc
      rw [hsc] at h
      simp only [Option.some.injEq] at h
      rw [scanCore_of_spec _ _ _ hsc, ← h]
  | some pair =>
    obtain ⟨sheet, after⟩ := pair
    rw [hsb] at h
    dsimp only at h ⊢
    cases hsc : specCoreParse after with
    | none => rw [hsc] at h; exact absurd h (by simp)
    | some rc =>
      obtain ⟨row, col⟩ := rc
      rw [hsc] at h
      simp only [Option.some.injEq] at h
      rw [scanCore_of_spec _ _ _ hsc, ← h]

/-- When no prefix of the trimmed token matches the grammar, parse_cell
returns the failure sentinel. -/
theorem parseCell_sentinel_of_no_prefix (l : List Char)
    (h : hasCellTokenPrefixSpec (trimChars l) = false) :
    parseCellChars l = (none, -1, -1) := by
  unfold parseCellChars
  dsimp only
  cases hsb : splitAtBang (trimChars l) with
  | none =>
    dsimp only
    cases hscT : scanCore (trimChars l) with
    | none => rfl
    | some v =>
      obtain ⟨col, row, rest⟩ := v
      rw [hasPrefix_of_bare_scan _ _ _ _ hscT] at h
      exact absurd h (by simp)
  | some pair =>
    obtain ⟨sheet, after⟩ := pair
    dsimp only
    cases hscA : scanCore after with
    | some v =>
      obtain ⟨col, row, rest⟩ := v
      rw [hasPrefix_of_sheet_scan _ _ _ _ _ _ hsb hscA] at h
      exact absurd h (by simp)
    | none =>
      dsimp only
      cases hscT : scanCore (trimChars l) with
      | none => rfl
      | some v =>
        obtain ⟨col, row, rest⟩ := v
        rw [hasPrefix_of_bare_scan _ _ _ _ hscT] at h
        exact absurd h (by simp)

/-- Valid uppercase code points round-trip through Char.ofNat. -/
theorem charOfNat_toNat (n : ℕ) (h1 : 65 ≤ n) (h2 : n ≤ 90) :
    (Char.ofNat n).toNat = n := by
  have hv : n.isValidChar := Or.inl (by omega)
  unfold Char.ofNat
  rw [dif_pos hv]
  rfl

/-- Uppercasing a letter lands at or above the uppercase A code point. -/
theorem upCh_letter_ge (c : Char) (h : isLetterCh c = true) :
    65 ≤ (upCh c).toNat := by
  unfold isLetterCh at h
  simp only [Bool.or_eq_true, Bool.and_eq_true, decide_eq_true_eq] at h
  unfold upCh
  by_cases hc : (97 ≤ c.toNat && c.toNat ≤ 122) = true
  · rw [if_pos hc]
    simp only [Bool.and_eq_true, decide_eq_true_eq] at hc
    rw [charOfNat_toNat (c.toNat - 32) (by omega) (by omega)]
    omega
  · rw [if_neg hc]
    simp only [Bool.and_eq_true, decide_eq_true_eq, not_and, not_le] at hc
    rcases h with h | h <;> omega

/-- The column fold over letters stays at or above one. -/
theorem lettersFold_ge_one (l : List Char) (acc : ℤ)
    (hall : ∀ x ∈ l, isLetterCh x = true) (hacc : 1 ≤ acc) :
    1 ≤ l.foldl (fun a c => a * 26 + (((upCh c).toNat : ℤ) - 65 + 1)) acc := by
  induction l generalizing acc with
  | nil => simpa using hacc
  | cons c cs ih =>
    rw [List.foldl_cons]
    have h65i : (65 : ℤ) ≤ ((upCh c).toNat : ℤ) := by
      exact_mod_cast upCh_letter_ge c (hall c (List.mem_cons_self c cs))
    refine ih _ (fun x hx => hall x (List.mem_cons_of_mem c hx)) ?_
    show (1 : ℤ) ≤ acc * 26 + (((upCh c).toNat : ℤ) - 65 + 1)
    linarith

/-- The column value of a nonempty letter run is nonnegative. -/
theorem lettersToCol_nonneg (letters : List Char) (hne : ¬ letters = [])
    (hall : ∀ x ∈ letters, isLetterCh x = true) :
    0 ≤ lettersToCol letters := by
  unfold lettersToCol
  cases letters with
  | nil => exact absurd rfl hne
  | cons c0 cs =>
    rw [List.foldl_cons]
    have h65i : (65 : ℤ) ≤ ((upCh c0).toNat : ℤ) := by
      exact_mod_cast upCh_letter_ge c0 (hall c0 (List.mem_cons_self c0 cs))
    have h1 := lettersFold_ge_one cs
      ((fun a c => a * 26 + (((upCh c).toNat : ℤ) - 65 + 1)) 0 c0)
      (fun x hx => hall x (List.mem_cons_of_mem c0 hx))
      (by show (1 : ℤ) ≤ 0 * 26 + (((upCh c0).toNat : ℤ) - 65 + 1); linarith)
    linarith

/-- A grammar-core parse has a nonnegative column. -/
theorem specCoreParse_col_nonneg (l : List Char) (row col : ℤ)
    (h : specCoreParse l = some (row, col)) : 0 ≤ col := by
  unfold specCoreParse at h
  dsimp only at h
  by_cases hl : (((stripDollar l).takeWhile isLetterCh).isEmpty : Bool) = true
  · rw [if_pos hl] at h; exact absurd h (by simp)
  · rw [if_neg hl] at h
    set l1 := stripDollar l with hl1
    set l3 := stripDollar (l1.drop (l1.takeWhile isLetterCh).length) with hl3
    by_cases h3 : (l3.isEmpty : Bool) = true
    · rw [if_pos h3] at h; exact absurd h (by simp)
    · rw [if_neg h3] at h
      by_cases hall : l3.all isDigitCh = true
      · rw [if_pos hall] at h
        simp only [Option.some.injEq, Prod.mk.injEq] at h
        rw [← h.2]
        refine lettersToCol_nonneg _ ?_ ?_
        · rw [List.isEmpty_iff] at hl; exact hl
        · intro x hx; exact List.mem_takeWhile_imp hx
      · rw [if_neg hall] at h; exact absurd h (by simp)

/-- A successful source core scan decomposes the input into its anchor,
letter, digit and rest pieces. -/
theorem scanCore_decomp (l : List Char) (col row : ℤ) (rest : List Char)
    (h : scanCore l = some (col, row, rest)) :
    ∃ d1 letters d2 digits,
      (d1 = [] ∨ d1 = ['$']) ∧ (d2 = [] ∨ d2 = ['$']) ∧
      ¬ letters = [] ∧ (∀ x ∈ letters, isLetterCh x = true) ∧
      ¬ digits = [] ∧ (∀ x ∈ digits, isDigitCh x = true) ∧
      l = d1 ++ letters ++ d2 ++ digits ++ rest ∧
      col = lettersToCol letters ∧ row = (digitsVal digits : ℤ) - 1 := by
  unfold scanCore at h
  dsimp only at h
  by_cases hl : (((stripDollar l).takeWhile isLetterCh).isEmpty : Bool) = true
  · rw [if_pos hl] at h; exact absurd h (by simp)
  · rw [if_neg hl] at h
    set l1 := stripDollar l with hl1
    set letters := l1.takeWhile isLetterCh with hletters
    set l2 := l1.drop letters.length with hl2
    set l3 := stripDollar l2 with hl3
    set digits := l3.takeWhile isDigitCh with hdigits
    by_cases hd : (digits.isEmpty : Bool) = true
    · rw [if_pos hd] at h; exact absurd h (by simp)
    · rw [if_neg hd] at h
      simp only [Option.some.injEq, Prod.mk.injEq] at h
      obtain ⟨hcol, hrow, hrest⟩ := h
      have hlall : ∀ x ∈ letters, isLetterCh x = true :=
        fun x hx => List.mem_takeWhile_imp hx
      have hdall : ∀ x ∈ digits, isDigitCh x = true :=
        fun x hx => List.mem_takeWhile_imp hx
      have hlne : ¬ letters = [] := by
        rw [List.isEmpty_iff] at hl; exact hl
      have hdne : ¬ digits = [] := by
        rw [List.isEmpty_iff] at hd; exact hd
      refine ⟨if l.head? = some '$' then ['$'] else [], letters,
        if l2.head? = some '$' then ['$'] else [], digits,
        (by split <;> simp), (by split <;> simp),
        hlne, hlall, hdne, hdall, ?_, hcol.symm, hrow.symm⟩
      have e1 : (if l.head? = some '$' then ['$'] else []) ++ l1 = l :=
        stripDollar_decomp l
      have e2 : letters ++ l2 = l1 := by
        rw [hl2]
        have hpre := List.takeWhile_prefix (l := l1) isLetterCh
        rw [← hletters] at hpre
        obtain ⟨u, hu⟩ := hpre
        rw [← hu, List.drop_left]
      have e3 : (if l2.head? = some '$' then ['$'] else []) ++ l3 = l2 :=
        stripDollar_decomp l2
      have e4 : digits ++ rest = l3 := by
        rw [← hrest, hdigits]
        have hpre := List.takeWhile_prefix (l := l3) isDigitCh
        obtain ⟨u, hu⟩ := hpre
        rw [← hdigits] at hu ⊢
        rw [← hu, List.drop_left]
      calc l = (if l.head? = some '$' then ['$'] else []) ++ l1 := e1.symm
        _ = (if l.head? = some '$' then ['$'] else []) ++ (letters
            ++ ((if l2.head? = some '$' then ['$'] else []) ++ (digits ++ rest))) := by
            rw [e4, e3, e2]
        _ = (if l.head? = some '$' then ['$'] else []) ++ letters
            ++ (if l2.head? = some '$' then ['$'] else []) ++ digits ++ rest := by
            simp [List.append_assoc]

/-- The source scanner still succeeds, at the same column, on a grammar
token extended by arbitrary trailing text. -/
theorem scanCore_build_ext (letters digits d1 d2 t : List Char)
    (hd1 : d1 = [] ∨ d1 = ['$']) (hd2 : d2 = [] ∨ d2 = ['$'])
    (hlne : ¬ letters = []) (hlall : ∀ x ∈ letters, isLetterCh x = true)
    (hdne : ¬ digits = []) (hdall : ∀ x ∈ digits, isDigitCh x = true) :
    ∃ row2 rest2, scanCore (d1 ++ letters ++ d2 ++ digits ++ t)
      = some (lettersToCol letters, row2, rest2) := by
  cases letters with
  | nil => exact absurd rfl hlne
  | cons c0 ls =>
  cases digits with
  | nil => exact absurd rfl hdne
  | cons e0 ds =>
  have hc0 := hlall c0 (List.mem_cons_self c0 ls)
  have he0 := hdall e0 (List.mem_cons_self e0 ds)
  have hblockhead : ∀ y, (d2 ++ ((e0 :: ds) ++ t) : List Char).head? = some y →
      isLetterCh y = false := by
    intro y hy
    rcases hd2 with rfl | rfl
    · simp only [List.nil_append, List.cons_append, List.head?_cons,
        Option.some.injEq] at hy
      subst hy
      exact (isDigitCh_facts e0 he0).2.2
    · simp only [List.cons_append, List.head?_cons, Option.some.injEq] at hy
      subst hy
      rfl
  have htw : ((c0 :: ls) ++ (d2 ++ ((e0 :: ds) ++ t))
      : List Char).takeWhile isLetterCh = c0 :: ls :=
    takeWhile_block isLetterCh (c0 :: ls) _ hlall hblockhead
  have hsd2 : stripDollar (d2 ++ ((e0 :: ds) ++ t)) = (e0 :: ds) ++ t := by
    rcases hd2 with rfl | rfl
    · rw [List.nil_append]
      refine stripDollar_ne _ (fun c hc => ?_)
      simp only [List.cons_append, List.head?_cons, Option.some.injEq] at hc
      rw [← hc]
      exact (isDigitCh_facts e0 he0).1
    · rw [List.cons_append, List.nil_append]
      exact stripDollar_dollar _
  have hsd1 : stripDollar (d1 ++ ((c0 :: ls) ++ (d2 ++ ((e0 :: ds) ++ t))))
      = (c0 :: ls) ++ (d2 ++ ((e0 :: ds) ++ t)) := by
    rcases hd1 with rfl | rfl
    · rw [List.nil_append]
      refine stripDollar_ne _ (fun c hc => ?_)
      simp only [List.cons_append, List.head?_cons, Option.some.injEq] at hc
      rw [← hc]
      exact (isLetterCh_facts c0 hc0).1
    · rw [List.cons_append, List.nil_append]
      exact stripDollar_dollar _
  have htwd : ((e0 :: ds) ++ t).takeWhile isDigitCh
      = (e0 :: ds) ++ t.takeWhile isDigitCh :=
    List.takeWhile_append_of_pos hdall
  refine ⟨(digitsVal ((e0 :: ds) ++ t.takeWhile isDigitCh) : ℤ) - 1,
    ((e0 :: ds) ++ t).drop ((e0 :: ds) ++ t.takeWhile isDigitCh).length, ?_⟩
  have hre : d1 ++ (c0 :: ls) ++ d2 ++ (e0 :: ds) ++ t
      = d1 ++ ((c0 :: ls) ++ (d2 ++ ((e0 :: ds) ++ t))) := by
    simp [List.append_assoc]
  rw [hre]
  unfold scanCore
  dsimp only
  rw [hsd1, htw]
  rw [if_neg (by simp)]
  rw [List.drop_left, hsd2, htwd]
  rw [if_neg (by simp)]

/-- Any extension of a grammar-core token still scans, at the same
column. -/
theorem scanCore_extend (p t : List Char) (row col : ℤ)
    (h : specCoreParse p = some (row, col)) :
    ∃ row2 rest2, scanCore (p ++ t) = some (col, row2, rest2) := by
  have hs := scanCore_of_spec p row col h
  obtain ⟨d1, letters, d2, digits, hd1, hd2, hlne, hlall, hdne, hdall,
    hp, hcol, hrow⟩ := scanCore_decomp p col row [] hs
  obtain ⟨row2, rest2, hsc⟩ :=
    scanCore_build_ext letters digits d1 d2 t hd1 hd2 hlne hlall hdne hdall
  refine ⟨row2, rest2, ?_⟩
  have hpt : p ++ t = d1 ++ letters ++ d2 ++ digits ++ t := by
    rw [hp]; simp
  rw [hpt, hcol]
  exact hsc

/-- Every non-failing parse_cell result is the grammar parse of some
prefix of the stripped token. -/
theorem parseCell_result_spec (l : List Char) :
    parseCellChars l = (none, -1, -1) ∨
    ∃ p rest, p ++ rest = trimChars l ∧
      specCellParse p = some (parseCellChars l) := by
  unfold parseCellChars
  dsimp only
  cases hsb : splitAtBang (trimChars l) with
  | none =>
    dsimp only
    cases hscT : scanCore (trimChars l) with
    | none => exact Or.inl rfl
    | some v =>
      obtain ⟨col, row, rest⟩ := v
      refine Or.inr ?_
      obtain ⟨p, hp, hpb, hps⟩ := scanCore_prefix (trimChars l) col row rest hscT
      refine ⟨p, rest, hp, ?_⟩
      unfold specCellParse
      rw [splitAtBang_none p hpb, hps]
  | some pair =>
    obtain ⟨sheet, after⟩ := pair
    dsimp only
    cases hscA : scanCore after with
    | some v =>
      obtain ⟨col, row, rest⟩ := v
      refine Or.inr ?_
      obtain ⟨ht, hne, hbang⟩ := splitAtBang_some (trimChars l) sheet after hsb
      obtain ⟨p, hp, hpb, hps⟩ := scanCore_prefix after col row rest hscA
      refine ⟨sheet ++ '!' :: p, rest, ?_, ?_⟩
      · rw [ht, ← hp]; simp
      · unfold specCellParse
        rw [splitAtBang_build sheet p hne hbang]
        dsimp only
        rw [hps]
    | none =>
      dsimp only
      cases hscT : scanCore (trimChars l) with
      | none => exact Or.inl rfl
      | some v =>
        obtain ⟨col, row, rest⟩ := v
        refine Or.inr ?_
        obtain ⟨p, hp, hpb, hps⟩ := scanCore_prefix (trimChars l) col row rest hscT
        refine ⟨p, rest, hp, ?_⟩
        unfold specCellParse
        rw [splitAtBang_none p hpb, hps]

/-- When some prefix of the stripped token matches the grammar, parse_cell
does not return the failure sentinel. -/
theorem parseCell_nonsentinel (l : List Char)
    (h : hasCellTokenPrefixSpec (trimChars l) = true) :
    ¬ parseCellChars l = (none, -1, -1) := by
  unfold hasCellTokenPrefixSpec at h
  rw [List.any_eq_true] at h
  obtain ⟨k, hk, hks⟩ := h
  rw [Option.isSome_iff_exists] at hks
  obtain ⟨out, hout⟩ := hks
  obtain ⟨sh, row, col⟩ := out
  unfold specCellParse at hout
  cases hsbp : splitAtBang ((trimChars l).take k) with
  | none =>
    rw [hsbp] at hout
    dsimp only at hout
    cases hcore : specCoreParse ((trimChars l).take k) with
    | none => rw [hcore] at hout; exact absurd hout (by simp)
    | some rc =>
      obtain ⟨row0, col0⟩ := rc
      have hge : 0 ≤ col0 := specCoreParse_col_nonneg _ _ _ hcore
      obtain ⟨row2, rest2, hsct0⟩ := scanCore_extend ((trimChars l).take k)
        ((trimChars l).drop k) row0 col0 hcore
      rw [List.take_append_drop] at hsct0
      unfold parseCellChars
      dsimp only
      cases hsb : splitAtBang (trimChars l) with
      | none =>
        dsimp only
        rw [hsct0]
        intro heq
        have h3 : col0 = -1 := congrArg (fun q => q.2.2) heq
        omega
      | some pair =>
        obtain ⟨sheet, after⟩ := pair
        dsimp only
        cases hscA : scanCore after with
        | some v =>
          obtain ⟨cA, rA, restA⟩ := v
          intro heq
          exact Option.noConfusion (congrArg (fun q => q.1) heq)
        | none =>
          dsimp only
          rw [hsct0]
          intro heq
          have h3 : col0 = -1 := congrArg (fun q => q.2.2) heq
          omega
  | some pairp =>
    obtain ⟨sheetp, afterp⟩ := pairp
    rw [hsbp] at hout
    dsimp only at hout
    cases hcore : specCoreParse afterp with
    | none => rw [hcore] at hout; exact absurd hout (by simp)
    | some rc =>
      obtain ⟨row0, col0⟩ := rc
      obtain ⟨htk, hnep, hbangp⟩ := splitAtBang_some _ _ _ hsbp
      obtain ⟨row2, rest2, hscA0⟩ :=
        scanCore_extend afterp ((trimChars l).drop k) row0 col0 hcore
      have hsbt : splitAtBang (trimChars l)
          = some (sheetp, afterp ++ (trimChars l).drop k) := by
        have e : trimChars l = sheetp ++ '!' :: (afterp ++ (trimChars l).drop k) := by
          calc trimChars l
              = (trimChars l).take k ++ (trimChars l).drop k :=
                (List.take_append_drop k (trimChars l)).symm
            _ = (sheetp ++ '!' :: afterp) ++ (trimChars l).drop k := by rw [htk]
            _ = sheetp ++ '!' :: (afterp ++ (trimChars l).drop k) := by simp
        have hsplit :=
          splitAtBang_build sheetp (afterp ++ (trimChars l).drop k) hnep hbangp
        rw [← e] at hsplit
        exact hsplit
      unfold parseCellChars
      dsimp only
      rw [hsbt]
      dsimp only
      rw [hscA0]
      intro heq
      exact Option.noConfusion (congrArg (fun q => q.1) heq)

/-- parse_cell returns the sentinel exactly when no prefix of the stripped
token matches the grammar. -/
theorem parseCell_sentinel_iff (l : List Char) :
    parseCellChars l = (none, -1, -1) ↔
      hasCellTokenPrefixSpec (trimChars l) = false := by
  constructor
  · intro hsent
    cases hh : hasCellTokenPrefixSpec (trimChars l) with
    | false => rfl
    | true => exact absurd hsent (parseCell_nonsentinel l hh)
  · exact parseCell_sentinel_of_no_prefix l

/-- On a token with a grammatical prefix, the parse result is the grammar
parse of one of the stripped token's prefixes. -/
theorem parseCell_of_grammatical (l : List Char)
    (h : hasCellTokenPrefixSpec (trimChars l) = true) :
    ∃ p rest, p ++ rest = trimChars l ∧
      specCellParse p = some (parseCellChars l) := by
  rcases parseCell_result_spec l with hs | hok
  · exact absurd hs (parseCell_nonsentinel l h)
  · exact hok

/-- Counterexample to claim C5 as stated: A1B does not match the reference
grammar as a whole token, yet parse_cell_reference does not return the
row=col=-1 sentinel on it — re.match accepts the grammatical prefix A1. -/
theorem claim5_counterexample :
    specCellParse (trimChars ('A' :: '1' :: ['B'])) = none ∧
    parseCellChars ('A' :: '1' :: ['B']) = (none, 0, 0) :=
  ⟨rfl, rfl⟩

/-- Claim C5 as amended: parse_cell returns the grammar coordinates
whenever the whole token matches the grammar (with the documented
examples); it returns the row=col=-1 sentinel exactly on tokens no prefix
of which matches the grammar; and on every other token the result is the
grammar parse of some prefix of the stripped token, so a token that merely
extends a grammatical prefix parses as a grammatical prefix instead of
failing, and the parser never throws. -/
theorem claim5_amended_parse_cell :
    (parseCellReference "A1" = (none, 0, 0) ∧
     parseCellReference "Z1" = (none, 0, 25) ∧
     parseCellReference "AA1" = (none, 0, 26) ∧
     parseCellReference "$B$2" = parseCellReference "B2") ∧
    (∀ (l : List Char) (out : Option String × ℤ × ℤ),
      specCellParse (trimChars l) = some out → parseCellChars l = out) ∧
    (∀ l : List Char, parseCellChars l = (none, -1, -1) ↔
      hasCellTokenPrefixSpec (trimChars l) = false) ∧
    (∀ l : List Char, hasCellTokenPrefixSpec (trimChars l) = true →
      ∃ p rest, p ++ rest = trimChars l ∧
        specCellParse p = some (parseCellChars l)) :=
  ⟨⟨rfl, rfl, rfl, rfl⟩, parseCell_refines_spec, parseCell_sentinel_iff,
    parseCell_of_grammatical⟩

/-- Witness for the amended claim C5 at the tokens AA1, a double comma and
A1B. -/
theorem claim5_amended_parse_cell_witness :
    specCellParse (trimChars ('A' :: 'A' :: ['1'])) = some (none, 0, 26) ∧
    parseCellChars ('A' :: 'A' :: ['1']) = (none, 0, 26) ∧
    (parseCellChars (',' :: [',']) = (none, -1, -1) ↔
      hasCellTokenPrefixSpec (trimChars (',' :: [','])) = false) ∧
    (∃ p rest, p ++ rest = trimChars ('A' :: '1' :: ['B']) ∧
      specCellParse p = some (parseCellChars ('A' :: '1' :: ['B']))) :=
  ⟨rfl,
   claim5_amended_parse_cell.2.1 ('A' :: 'A' :: ['1']) (none, 0, 26) rfl,
   claim5_amended_parse_cell.2.2.1 (',' :: [',']),
   claim5_amended_parse_cell.2.2.2 ('A' :: '1' :: ['B']) (by decide)⟩

end MCPSheet
